import Mathlib

/-!
Shallow embedding of the batched-write engine of
`src/services/backend/app/src/models/base.py` (class `AppModel`), together
with the DTO utilities of `src/services/backend/app/src/dtos.py` that it
uses, and proofs settling the spec claims about it.

Conventions:
* Python `None` appearing as a *dict value* is modelled by `Value.null`
  (SQL NULL); an *unset / absent* optional DTO field is modelled by
  `Option.none` on the DTO side, mirroring msgspec fields that default to
  `None` and are then dropped by `dict_without_unset`.
* Python `int` is modelled by `Int`, `str` by `String`, `bool` by `Bool`.
* `math.floor(PSQL_QUERY_ALLOWED_MAX_ARGS / C)` is modelled by natural
  division `32767 / C`: for every column count `C < 2 ^ 38` the float
  division `32767 / C` is within `2 ^ -38` of the exact rational value,
  which is closer than the `1 / C` gap to the nearest integer, so the
  float floor agrees with the rational floor.  Likewise
  `math.floor(m * 0.75)` is exact for `m ≤ 32767` since `0.75` and the
  product are exactly representable, so it is modelled by `3 * m / 4`.
-/

/-- Runtime values stored in columns / dict entries.  `null` is SQL NULL
(Python `None` used as a value). -/
inductive Value where
  | null
  | str (s : String)
  | int (n : Int)
  | bool (b : Bool)
deriving DecidableEq, Repr

/-- A Python `dict` as produced by `AppDTO.dict` / `dict_without_unset`:
an insertion-ordered association list from field name to value. -/
abbrev Dict := List (String × Value)

/-- `d[k]` / `d.get(k)` on a dict (first binding wins; real dicts have
unique keys). -/
def dlookup (d : Dict) (k : String) : Option Value :=
  List.lookup k d

/-! ## Batch sizing (`max_batch_size`, `_batch_size`, `batch_generator`) -/

/-- `PSQL_QUERY_ALLOWED_MAX_ARGS` from `src/models/base.py`. -/
def PSQL_QUERY_ALLOWED_MAX_ARGS : Nat := 32767

/-- `AppModel.max_batch_size` as a function of the column count
(`len(cls._all_column_names())`):
`int(math.floor(PSQL_QUERY_ALLOWED_MAX_ARGS / column_count))`. -/
def max_batch_size_of (C : Nat) : Nat :=
  PSQL_QUERY_ALLOWED_MAX_ARGS / C

/-- `AppModel._batch_size` as a function of the override attribute
(`insert_batch_size_override`, a Python int or `None`) and the column
count.  Source:
`if override is not None and override > 0: return min(override, max_batch_size())`
`else: return int(math.floor(max_batch_size() * 0.75))`. -/
def batch_size_of (override : Option Int) (C : Nat) : Int :=
  match override with
  | some o =>
    if o > 0 then min o (max_batch_size_of C : Int)
    else 3 * (max_batch_size_of C : Int) / 4
  | none => 3 * (max_batch_size_of C : Int) / 4

/-- The batch size `batch_generator` actually slices with:
`batch_size = max(1, cls._batch_size())`. -/
def used_batch_size_of (override : Option Int) (C : Nat) : Nat :=
  max 1 (batch_size_of override C).toNat

/-- Structural worker for `chunksOf`: `fuel` bounds the number of
chunks still to be produced (any `fuel ≥ l.length` gives the same
result).  A structural definition is used so that the kernel can
evaluate it on concrete inputs. -/
def chunksOfFuel (bs : Nat) : Nat → List α → List (List α)
  | _, [] => []
  | 0, _ :: _ => []
  | fuel + 1, x :: xs =>
    (x :: xs.take (bs - 1)) :: chunksOfFuel bs fuel (xs.drop (bs - 1))

/-- The slicing loop of `AppModel.batch_generator`:
`for i in range(0, len(items), batch_size): yield items[i:i+batch_size]`,
for a positive step `bs`. -/
def chunksOf (bs : Nat) (l : List α) : List (List α) :=
  chunksOfFuel bs l.length l

theorem chunksOfFuel_congr (bs : Nat) :
    ∀ (n : Nat) (l : List α) (f1 f2 : Nat), l.length ≤ n →
      l.length ≤ f1 → l.length ≤ f2 →
      chunksOfFuel bs f1 l = chunksOfFuel bs f2 l := by
  intro n
  induction n with
  | zero =>
    intro l f1 f2 h1 _ _
    cases l with
    | nil => cases f1 <;> cases f2 <;> rfl
    | cons x xs => simp at h1
  | succ n ih =>
    intro l f1 f2 h1 h2 h3
    cases l with
    | nil => cases f1 <;> cases f2 <;> rfl
    | cons x xs =>
      cases f1 with
      | zero => simp at h2
      | succ f1 =>
        cases f2 with
        | zero => simp at h3
        | succ f2 =>
          simp only [chunksOfFuel]
          congr 1
          have hd : (xs.drop (bs - 1)).length ≤ xs.length := by
            rw [List.length_drop]
            omega
          apply ih
          · simp only [List.length_cons] at h1
            omega
          · simp only [List.length_cons] at h2
            omega
          · simp only [List.length_cons] at h3
            omega

theorem chunksOf_nil (bs : Nat) : chunksOf bs ([] : List α) = [] := rfl

theorem chunksOf_cons (bs : Nat) (x : α) (xs : List α) :
    chunksOf bs (x :: xs) =
      (x :: xs.take (bs - 1)) :: chunksOf bs (xs.drop (bs - 1)) := by
  unfold chunksOf
  simp only [List.length_cons, chunksOfFuel]
  congr 1
  apply chunksOfFuel_congr bs (xs.length) _ _ _ _ _ le_rfl
  · rw [List.length_drop]
    omega
  · rw [List.length_drop]
    omega

theorem chunksOf_flatten_aux (bs : Nat) :
    ∀ (n : Nat) (l : List α), l.length ≤ n → (chunksOf bs l).flatten = l := by
  intro n
  induction n with
  | zero =>
    intro l h
    cases l with
    | nil => rfl
    | cons x xs => simp at h
  | succ n ih =>
    intro l h
    cases l with
    | nil => rfl
    | cons x xs =>
      rw [chunksOf_cons, List.flatten_cons, ih _ ?_]
      · rw [List.cons_append, List.take_append_drop]
      · rw [List.length_drop]
        simp only [List.length_cons] at h
        omega

/-- Concatenating the batches of `batch_generator` gives back the input
list (slices `items[i:i+bs]` cover the list in order). -/
theorem chunksOf_flatten (bs : Nat) (l : List α) :
    (chunksOf bs l).flatten = l :=
  chunksOf_flatten_aux bs l.length l le_rfl

theorem chunksOf_ne_nil_aux (bs : Nat) :
    ∀ (n : Nat) (l : List α) (b : List α), l.length ≤ n →
      b ∈ chunksOf bs l → b ≠ [] := by
  intro n
  induction n with
  | zero =>
    intro l b h hb
    cases l with
    | nil => rw [chunksOf_nil] at hb; simp at hb
    | cons x xs => simp at h
  | succ n ih =>
    intro l b h hb
    cases l with
    | nil => rw [chunksOf_nil] at hb; simp at hb
    | cons x xs =>
      rw [chunksOf_cons] at hb
      rcases List.mem_cons.mp hb with h1 | h1
      · subst h1; simp
      · refine ih _ _ ?_ h1
        rw [List.length_drop]
        simp only [List.length_cons] at h
        omega

theorem chunksOf_ne_nil (bs : Nat) (l : List α) (b : List α)
    (hb : b ∈ chunksOf bs l) : b ≠ [] :=
  chunksOf_ne_nil_aux bs l.length l b le_rfl hb

/-! ## Entity schema (Piccolo `Table` metadata used by `AppModel`) -/

/-- Static metadata of one column: its name, its `unique` flag and the
client-side default Piccolo fills in when `cls(**item)` omits it
(`Varchar` defaults to `""`, `Integer` to `0`, ...). -/
structure ColumnMeta where
  name : String
  unique : Bool
  dflt : Value
deriving DecidableEq, Repr

/-- A declared multi-column uniqueness constraint
(`cls._meta.constraints` entry). -/
structure ConstraintMeta where
  name : String
  unique_columns : List String
deriving DecidableEq, Repr

/-- Static schema of a concrete `AppModel` subclass: the user-declared
columns (after the four inherited system columns), the declared
constraints, and the `insert_batch_size_override` class attribute. -/
structure EntitySchema where
  userColumns : List ColumnMeta
  constraints : List ConstraintMeta
  insert_batch_size_override : Option Int
deriving DecidableEq, Repr

/-- `AppModel._excluded_column_names()`:
`[id, created_at, updated_at, is_active]`. -/
def excluded_column_names : List String :=
  ["id", "created_at", "updated_at", "is_active"]

/-- The four columns every `AppModel` inherits.  `created_at` and
`updated_at` default to the current time, supplied separately as `now`
when an entity is constructed; `is_active` defaults to `True`. -/
def systemColumns : List ColumnMeta :=
  [⟨"id", false, Value.null⟩,
   ⟨"created_at", false, Value.null⟩,
   ⟨"updated_at", false, Value.null⟩,
   ⟨"is_active", false, Value.bool true⟩]

/-- `cls._meta.columns`: inherited system columns followed by the
user-declared ones. -/
def allColumns (s : EntitySchema) : List ColumnMeta :=
  systemColumns ++ s.userColumns

/-- `AppModel._all_column_names()`. -/
def all_column_names (s : EntitySchema) : List String :=
  (allColumns s).map (·.name)

/-- `AppModel._unique_columns()`: unique columns whose name is not one of
the excluded (system) names. -/
def unique_columns (s : EntitySchema) : List ColumnMeta :=
  (allColumns s).filter
    (fun c => c.unique && !(excluded_column_names.contains c.name))

/-- `AppModel._on_conflict_update_columns()`: non-unique columns whose
name is not one of the excluded (system) names. -/
def on_conflict_update_columns (s : EntitySchema) : List ColumnMeta :=
  (allColumns s).filter
    (fun c => !c.unique && !(excluded_column_names.contains c.name))

/-- `AppModel.max_batch_size()`. -/
def max_batch_size (s : EntitySchema) : Nat :=
  max_batch_size_of (all_column_names s).length

/-- `AppModel._batch_size()`. -/
def batch_size (s : EntitySchema) : Int :=
  batch_size_of s.insert_batch_size_override (all_column_names s).length

/-- The batch size `AppModel.batch_generator` slices with. -/
def used_batch_size (s : EntitySchema) : Nat :=
  max 1 (batch_size s).toNat

/-- `AppModel.batch_generator(items)` as the list of yielded batches. -/
def batch_generator (s : EntitySchema) (items : List α) : List (List α) :=
  chunksOf (used_batch_size s) items

/-! ## ON CONFLICT clauses and multi-row INSERT statements -/

/-- `OnConflictAction` from `src/models/base.py`. -/
inductive OnConflictAction where
  | doNothing
  | doUpdate
deriving DecidableEq, Repr

/-- A conflict target: a single column (`target=unique_cols[0]` or
`target=(cls.id)`) or a named constraint (`target=constraint._meta.name`). -/
inductive ConflictTarget where
  | col (name : String)
  | constr (name : String)
deriving DecidableEq, Repr

/-- The `.on_conflict(target=..., action=..., values=...)` data attached
to an Insert query; `values` holds the names of the columns overwritten
on conflict. -/
structure ConflictClause where
  target : Option ConflictTarget
  action : OnConflictAction
  values : List String
deriving DecidableEq, Repr

/-- An entity instance `cls(**item)` about to be inserted: the explicit
`id` if the item carried one, and the values of all remaining columns in
schema order (absent keys filled with column defaults). -/
structure Entity where
  idVal : Option Int
  data : Dict
deriving DecidableEq, Repr

/-- A multi-row `cls.insert(*items)` statement, with its optional
ON CONFLICT clause. -/
structure InsertStmt where
  rows : List Entity
  onConflict : Option ConflictClause
deriving DecidableEq, Repr

/-- The explicit id of `cls(**item)`: present iff the item dict carries
an integer `id` entry. -/
def entityId (item : Dict) : Option Int :=
  match dlookup item "id" with
  | some (Value.int i) => some i
  | _ => none

/-- `cls(**item)`: build an entity from a dict, filling every column the
dict does not mention with its default (`now` for the two timestamp
columns, whose Piccolo defaults call `datetime_now_utc`). -/
def mkEntity (s : EntitySchema) (now : Value) (item : Dict) : Entity :=
  { idVal := entityId item
    data :=
      ((allColumns s).filter (fun c => c.name ≠ "id")).map (fun c =>
        (c.name,
          (dlookup item c.name).getD
            (if c.name = "created_at" ∨ c.name = "updated_at" then now
             else c.dflt))) }

/-- `AppModel._add_on_conflict_params(query)`, reduced to the clause it
attaches, plus whether the `NOT SURE WHAT TO DO HERE!` warning was
logged.  Branches exactly as the source: one unique column, else one
declared constraint, else bare `DO NOTHING` with a warning. -/
def add_on_conflict_params (s : EntitySchema) : ConflictClause × Bool :=
  match unique_columns s with
  | [u] =>
    (⟨some (ConflictTarget.col u.name), OnConflictAction.doUpdate,
      (on_conflict_update_columns s).map (·.name)⟩, false)
  | _ =>
    match s.constraints with
    | [ct] =>
      (⟨some (ConflictTarget.constr ct.name), OnConflictAction.doUpdate,
        (on_conflict_update_columns s).map (·.name)⟩, false)
    | _ => (⟨none, OnConflictAction.doNothing, []⟩, true)

/-! ## Store model (Postgres uniqueness + ON CONFLICT semantics) -/

/-- One stored table row: its `id` and the remaining columns. -/
structure Row where
  rid : Int
  data : Dict
deriving DecidableEq, Repr

/-- The backing store for one table: the rows in insertion order and the
next value of the `id` bigserial sequence. -/
structure StoreState where
  rows : List Row
  nextId : Int
deriving DecidableEq, Repr

/-- SQL equality for uniqueness checks: two values collide only when both
are present and equal and not NULL (Postgres UNIQUE ignores NULLs). -/
def nonNullEq (a b : Option Value) : Bool :=
  match a, b with
  | some x, some y => if x = Value.null then false else decide (x = y)
  | _, _ => false

/-- Does the candidate column data `d` collide with row data `d2` on
every member column of constraint `ct`? -/
def constraintHit (ct : ConstraintMeta) (d d2 : Dict) : Bool :=
  !ct.unique_columns.isEmpty &&
    ct.unique_columns.all (fun m => nonNullEq (dlookup d m) (dlookup d2 m))

/-- The error asyncpg raises on a uniqueness violation
(`UniqueViolationError`), carrying the server message. -/
inductive DbError where
  | uniqueViolation (msg : String)
deriving DecidableEq, Repr

/-- The server message of a uniqueness violation. -/
def violationMsg (t : ConflictTarget) : String :=
  match t with
  | ConflictTarget.col n =>
    "duplicate key value violates unique constraint on column " ++ n
  | ConflictTarget.constr n =>
    "duplicate key value violates unique constraint " ++ n

/-- Find the first uniqueness conflict an inserted row (with resolved id
`erid` and data `e`) has against the stored rows: the primary key first,
then each unique column, then each declared constraint. -/
def findConflict (s : EntitySchema) (rows : List Row) (erid : Int)
    (e : Entity) : Option (ConflictTarget × Row) :=
  match rows.find? (fun r => r.rid == erid) with
  | some r => some (ConflictTarget.col "id", r)
  | none =>
    match
      (unique_columns s).findSome? (fun c =>
        (rows.find? (fun r =>
            nonNullEq (dlookup e.data c.name) (dlookup r.data c.name))).map
          (fun r => (ConflictTarget.col c.name, r)))
    with
    | some x => some x
    | none =>
      s.constraints.findSome? (fun ct =>
        (rows.find? (fun r => constraintHit ct e.data r.data)).map
          (fun r => (ConflictTarget.constr ct.name, r)))

/-- `DO UPDATE SET c = EXCLUDED.c` for every column name in `vals`,
applied to the conflicting row `r` with proposed values `e`. -/
def applyUpdate (vals : List String) (e : Entity) (r : Row) : Row :=
  { r with
      data := r.data.map (fun kv =>
        if vals.contains kv.1 then (kv.1, (dlookup e.data kv.1).getD kv.2)
        else kv) }

/-- Would row `r2` (after a DO UPDATE) violate a unique column or a
declared constraint against some other stored row? -/
def rowViolatesUnique (s : EntitySchema) (rows : List Row) (r2 : Row) :
    Bool :=
  (unique_columns s).any (fun c =>
    rows.any (fun r => r.rid != r2.rid &&
      nonNullEq (dlookup r2.data c.name) (dlookup r.data c.name))) ||
  s.constraints.any (fun ct =>
    rows.any (fun r => r.rid != r2.rid && constraintHit ct r2.data r.data))

/-- Replace the row with id `rid` by `r2`. -/
def replaceRow (rows : List Row) (rid : Int) (r2 : Row) : List Row :=
  rows.map (fun r => if r.rid = rid then r2 else r)

/-- The id an inserted row resolves to: its explicit id, or the next
serial value. -/
def resolvedId (st : StoreState) (e : Entity) : Int :=
  e.idVal.getD st.nextId

/-- The serial counter after inserting `e`: it only advances when the id
column took its `DEFAULT` (no explicit id). -/
def resolvedNext (st : StoreState) (e : Entity) : Int :=
  match e.idVal with
  | some _ => st.nextId
  | none => st.nextId + 1

/-- Execute the insertion of one row of a multi-row INSERT: resolve its
id (explicit, or the next serial), detect a uniqueness conflict and apply
the statement's ON CONFLICT clause to it.  Returns the new store and the
id the row contributes to `RETURNING id` (none when DO NOTHING skipped
it). -/
def execInsertOne (s : EntitySchema) (clause : Option ConflictClause)
    (st : StoreState) (e : Entity) :
    Except DbError (StoreState × Option Int) :=
  match findConflict s st.rows (resolvedId st e) e with
  | none =>
    Except.ok (⟨st.rows ++ [⟨resolvedId st e, e.data⟩], resolvedNext st e⟩,
      some (resolvedId st e))
  | some (t, r) =>
    match clause with
    | none => Except.error (DbError.uniqueViolation (violationMsg t))
    | some c =>
      match c.action with
      | OnConflictAction.doNothing =>
        if c.target = none ∨ c.target = some t then Except.ok (st, none)
        else Except.error (DbError.uniqueViolation (violationMsg t))
      | OnConflictAction.doUpdate =>
        if c.target = some t then
          let r2 := applyUpdate c.values e r
          if rowViolatesUnique s st.rows r2 then
            Except.error (DbError.uniqueViolation (violationMsg t))
          else
            Except.ok ({ st with rows := replaceRow st.rows r.rid r2 },
              some r.rid)
        else Except.error (DbError.uniqueViolation (violationMsg t))

/-- Execute the rows of a multi-row INSERT statement in order under one
ON CONFLICT clause; `RETURNING id` yields one id per affected row, in
row order. -/
def execInsertRows (s : EntitySchema) (clause : Option ConflictClause) :
    StoreState → List Entity → Except DbError (StoreState × List Int)
  | st, [] => Except.ok (st, [])
  | st, e :: rest =>
    match execInsertOne s clause st e with
    | Except.error err => Except.error err
    | Except.ok (st1, oid) =>
      match execInsertRows s clause st1 rest with
      | Except.error err => Except.error err
      | Except.ok (st2, ids) => Except.ok (st2, oid.toList ++ ids)

/-- Execute a whole multi-row INSERT statement. -/
def execInsertStmt (s : EntitySchema) (st : StoreState) (q : InsertStmt) :
    Except DbError (StoreState × List Int) :=
  execInsertRows s q.onConflict st q.rows

/-- Errors the model layer surfaces: `ConflictException` (raised by
`create_many`/`upsert_many` on `UniqueViolationError`), a raw
`UniqueViolationError` (propagated unwrapped by `update_many_with_id`),
and `NotFoundException`. -/
inductive AppError where
  | conflict (msg : String)
  | uniqueRaw (msg : String)
  | notFound (msg : String)
deriving DecidableEq, Repr

/-- Run a list of statements strictly sequentially, each committing on
its own; on the first `UniqueViolationError` stop (later statements are
never issued), keep the store as the already-committed statements left
it, and surface the error through `wrap`.  On success return the
concatenated `RETURNING id` lists. -/
def runStmts (s : EntitySchema) (st : StoreState)
    (stmts : List InsertStmt) (wrap : String → AppError) :
    StoreState × Except AppError (List Int) :=
  match stmts with
  | [] => (st, Except.ok [])
  | q :: rest =>
    match execInsertStmt s st q with
    | Except.error (DbError.uniqueViolation m) => (st, Except.error (wrap m))
    | Except.ok (st1, ids) =>
      match runStmts s st1 rest wrap with
      | (st2, Except.error e) => (st2, Except.error e)
      | (st2, Except.ok ids2) => (st2, Except.ok (ids ++ ids2))

/-! ## DTOs (`src/dtos.py`) and the bulk operations -/

/-- An `AppUpdateWithIdDTO` instance: the mandatory integer `id` plus the
remaining msgspec fields in declaration order, each either set to a value
or unset (`None`). -/
structure UpdateWithIdDto where
  id : Int
  fields : List (String × Option Value)
deriving DecidableEq, Repr

/-- `AppDTO.dict_without_unset`:
`{k: v for k, v in structs.asdict(self).items() if v is not None}`.
The `id` field is first in declaration order and never `None`. -/
def dict_without_unset (d : UpdateWithIdDto) : Dict :=
  ("id", Value.int d.id) ::
    d.fields.filterMap (fun p => p.2.map (fun v => (p.1, v)))

/-- Insertion into one entry of the `defaultdict(list)` used by
`group_dicts_by_keys`, preserving first-occurrence order of key tuples
and input order inside each group. -/
def groupInsert (k : List String) (d : Dict) :
    List (List String × List Dict) → List (List String × List Dict)
  | [] => [(k, [d])]
  | (k2, ds) :: rest =>
    if k = k2 then (k2, ds ++ [d]) :: rest
    else (k2, ds) :: groupInsert k d rest

/-- Lexicographic code-point comparison of strings as lists of
characters — the order Python's `sorted` uses on `str` keys. -/
def charListLe : List Char → List Char → Bool
  | [], _ => true
  | _ :: _, [] => false
  | a :: as, b :: bs =>
    if a.toNat < b.toNat then true
    else if b.toNat < a.toNat then false
    else charListLe as bs

def strLe (a b : String) : Bool :=
  charListLe a.data b.data

def insertSorted (x : String) : List String → List String
  | [] => [x]
  | y :: ys => if strLe x y then x :: y :: ys else y :: insertSorted x ys

/-- `sorted(keys)` by code points (insertion sort; the order itself only
serves to canonicalise key sets). -/
def sortStrings (l : List String) : List String :=
  l.foldr insertSorted []

/-- `tuple(sorted(item_dict.keys()))`: the canonical (sorted) key tuple
of a dict. -/
def key_tuple (d : Dict) : List String :=
  sortStrings (d.map (·.1))

/-- `AppModel.group_dicts_by_keys(dtos)`: convert each DTO with
`dict_without_unset`, group the dicts by their sorted key tuples and
return the groups (first-occurrence order). -/
def group_dicts_by_keys (dtos : List UpdateWithIdDto) : List (List Dict) :=
  (dtos.foldl (fun acc dto =>
    let d := dict_without_unset dto
    groupInsert (key_tuple d) d acc) []).map (·.2)

/-- The `cols_to_update` list of `update_many_with_id`:
`[c for c in batch[0].keys() if c != "id" and batch[0][c] is not None]`. -/
def cols_to_update (batch : List Dict) : List String :=
  match batch with
  | [] => []
  | b0 :: _ =>
    (b0.map (·.1)).filter (fun c =>
      c ≠ "id" && !(decide (dlookup b0 c = some Value.null)))

/-- The one statement `update_many_with_id` builds per batch:
`cls.insert(*items).on_conflict(action=DO_UPDATE,`
`values=cols_to_update + [cls.updated_at], target=(cls.id))`. -/
def updateStmtFor (s : EntitySchema) (now : Value) (batch : List Dict) :
    InsertStmt :=
  { rows := batch.map (mkEntity s now)
    onConflict := some
      { target := some (ConflictTarget.col "id")
        action := OnConflictAction.doUpdate
        values := cols_to_update batch ++ ["updated_at"] } }

/-- All statements `update_many_with_id` builds, in execution order:
for each key-set group, for each batch of that group, one
INSERT ... ON CONFLICT (id) DO UPDATE statement.  Statement construction
reads only the input DTOs, never the store, so it is factored out of the
execution. -/
def update_many_with_id_stmts (s : EntitySchema) (now : Value)
    (dtos : List UpdateWithIdDto) : List InsertStmt :=
  (group_dicts_by_keys dtos).flatMap (fun g =>
    (batch_generator s g).map (updateStmtFor s now))

/-- `AppModel.update_many_with_id(dtos)`: group, batch, execute each
statement sequentially, concatenate the returned ids.  It has no
`except UniqueViolationError` handler, so a violation propagates raw. -/
def update_many_with_id (s : EntitySchema) (now : Value) (st : StoreState)
    (dtos : List UpdateWithIdDto) :
    StoreState × Except AppError (List Int) :=
  runStmts s st (update_many_with_id_stmts s now dtos) AppError.uniqueRaw

/-- The statements `create_many` builds: plain multi-row INSERTs, one per
batch of the input, in order (`cls.insert(*[cls(**i.dict()) for i in
batch])`).  A create DTO is modelled by its full `dict()` (every msgspec
field present, `None` as `Value.null`). -/
def create_many_stmts (s : EntitySchema) (now : Value)
    (dtos : List Dict) : List InsertStmt :=
  (batch_generator s dtos).map (fun b =>
    { rows := b.map (mkEntity s now), onConflict := none })

/-- `AppModel.create_many(dtos)`: batch, insert each batch sequentially,
flatten the returned ids; `except UniqueViolationError as e:`
`raise ConflictException(str(e))`. -/
def create_many (s : EntitySchema) (now : Value) (st : StoreState)
    (dtos : List Dict) : StoreState × Except AppError (List Int) :=
  runStmts s st (create_many_stmts s now dtos) AppError.conflict

/-- The statements `upsert_many` builds: per batch, the multi-row INSERT
augmented by `_add_on_conflict_params`. -/
def upsert_many_stmts (s : EntitySchema) (now : Value)
    (dtos : List Dict) : List InsertStmt :=
  (batch_generator s dtos).map (fun b =>
    { rows := b.map (mkEntity s now)
      onConflict := some (add_on_conflict_params s).1 })

/-- `AppModel.upsert_many(dtos)`: like `create_many` but with the
conflict clause attached; also wraps `UniqueViolationError` into
`ConflictException`. -/
def upsert_many (s : EntitySchema) (now : Value) (st : StoreState)
    (dtos : List Dict) : StoreState × Except AppError (List Int) :=
  runStmts s st (upsert_many_stmts s now dtos) AppError.conflict

/-- `AppModel.read_one(id)`: select the row by id, raise
`NotFoundException` when absent. -/
def read_one (st : StoreState) (i : Int) : Except AppError Row :=
  match st.rows.find? (fun r => r.rid == i) with
  | none =>
    Except.error (AppError.notFound
      ("item with id " ++ toString i ++ " not found."))
  | some r => Except.ok r

/-- The stored row with a given id, if any. -/
def rowById (st : StoreState) (i : Int) : Option Row :=
  st.rows.find? (fun r => r.rid == i)

/-! ## Claim C4 and C5: batch-size arithmetic -/

/-- `(batch_size_of o C).toNat` never exceeds `max_batch_size_of C`. -/
theorem batch_size_toNat_le (o : Option Int) (C : Nat) :
    (batch_size_of o C).toNat ≤ max_batch_size_of C := by
  have h34 : (3 * (max_batch_size_of C : Int) / 4).toNat ≤ max_batch_size_of C := by
    rw [Int.toNat_le]
    have h4 : (4 : Int) * (max_batch_size_of C : Int) / 4 = (max_batch_size_of C : Int) :=
      Int.mul_ediv_cancel_left _ (by norm_num)
    calc 3 * (max_batch_size_of C : Int) / 4
        ≤ 4 * (max_batch_size_of C : Int) / 4 := by
          apply Int.ediv_le_ediv (by norm_num)
          have : (0 : Int) ≤ (max_batch_size_of C : Int) := Int.natCast_nonneg _
          linarith
      _ = (max_batch_size_of C : Int) := h4
  match o with
  | none => exact h34
  | some ov =>
    by_cases hov : ov > 0
    · simp only [batch_size_of, if_pos hov]
      rw [Int.toNat_le]
      exact min_le_right _ _
    · simp only [batch_size_of, if_neg hov]
      exact h34

/-- Spec formula (§4.1): `max_batch_size = floor(PROTOCOL_MAX_PARAMS /
column_count)` with real division.  Comparison definition for the
refinement claims. -/
def spec_max_batch_size (C : Nat) : Nat :=
  ⌊(32767 : ℚ) / (C : ℚ)⌋₊

/-- Spec formula (§4.1): `effective_batch_size = floor(max_batch_size *
SAFETY_FACTOR)`, `SAFETY_FACTOR = 0.75`, when no override is given. -/
def spec_effective_default (C : Nat) : Nat :=
  ⌊(spec_max_batch_size C : ℚ) * (3 / 4 : ℚ)⌋₊

/-- Spec formula (§4.1): `effective_batch_size = min(override,
max_batch_size)` when an override is given. -/
def spec_effective_override (o : Int) (C : Nat) : Int :=
  min o (spec_max_batch_size C : Int)

theorem spec_max_batch_size_eq (C : Nat) :
    spec_max_batch_size C = max_batch_size_of C := by
  unfold spec_max_batch_size max_batch_size_of PSQL_QUERY_ALLOWED_MAX_ARGS
  have h : ((32767 : ℚ)) = ((32767 : ℕ) : ℚ) := by norm_num
  rw [h, Nat.floor_div_nat, Nat.floor_natCast]

/-- Claim C4 (corrected): the batch size actually used to slice
(`max(1, _batch_size())` in `batch_generator`) is at least 1 for every
column count `C ≥ 1` and every override, and satisfies
`used * C ≤ PSQL_QUERY_ALLOWED_MAX_ARGS` whenever `C` itself does not
exceed the ceiling (equivalently whenever `max_batch_size ≥ 1`).  The
original claim asserted the product bound for every `C ≥ 1`, which fails
as soon as `C > 32767` (see the counterexample). -/
theorem C4_amended_batch_bound (o : Option Int) (C : Nat) (hC : 1 ≤ C) :
    1 ≤ used_batch_size_of o C ∧
      (C ≤ PSQL_QUERY_ALLOWED_MAX_ARGS →
        used_batch_size_of o C * C ≤ PSQL_QUERY_ALLOWED_MAX_ARGS) := by
  constructor
  · exact le_max_left 1 _
  · intro hCle
    have hmul : max_batch_size_of C * C ≤ PSQL_QUERY_ALLOWED_MAX_ARGS :=
      Nat.div_mul_le_self _ _
    have hle : (batch_size_of o C).toNat ≤ max_batch_size_of C :=
      batch_size_toNat_le o C
    unfold used_batch_size_of
    rcases Nat.eq_zero_or_pos (batch_size_of o C).toNat with h0 | hpos
    · rw [h0]
      simpa using hCle
    · have hmax : max 1 (batch_size_of o C).toNat = (batch_size_of o C).toNat := by
        omega
      rw [hmax]
      calc (batch_size_of o C).toNat * C ≤ max_batch_size_of C * C :=
            Nat.mul_le_mul_right C hle
        _ ≤ PSQL_QUERY_ALLOWED_MAX_ARGS := hmul

/-- Claim C4 (counterexample): at column count `C = 32768` the batch size
actually used to slice is `max(1, 0) = 1`, so the claimed bound
`effective_batch_size(C) * C ≤ 32767` fails even though the division
floor is 0 — exactly the case the claim says is included. -/
theorem C4_counterexample :
    1 ≤ 32768 ∧ used_batch_size_of none 32768 = 1 ∧
      ¬ used_batch_size_of none 32768 * 32768 ≤ PSQL_QUERY_ALLOWED_MAX_ARGS := by
  refine ⟨by norm_num, by decide, by decide⟩

/-- Witness for `C4_amended_batch_bound` at `o = none`, `C = 7` (the Note
entity's column count): the used batch size is 3510 and
`3510 * 7 = 24570 ≤ 32767`. -/
theorem C4_witness :
    1 ≤ used_batch_size_of none 7 ∧
      (7 ≤ PSQL_QUERY_ALLOWED_MAX_ARGS →
        used_batch_size_of none 7 * 7 ≤ PSQL_QUERY_ALLOWED_MAX_ARGS) :=
  C4_amended_batch_bound none 7 (by norm_num)

/-- Claim C5 (corrected): `max_batch_size` and the no-override and
positive-override branches of `_batch_size` match the spec formulas
(real-division floors), but a *non-positive* explicit override is
ignored by the code (`insert_batch_size_override > 0` guard) and falls
back to the `floor(max * 0.75)` branch instead of the claimed
`min(override, max_batch_size)`. -/
theorem C5_amended_formulas (C : Nat) (o : Int) :
    max_batch_size_of C = spec_max_batch_size C ∧
      batch_size_of none C = (spec_effective_default C : Int) ∧
      (0 < o → batch_size_of (some o) C = spec_effective_override o C) ∧
      (o ≤ 0 → batch_size_of (some o) C = batch_size_of none C) := by
  have hmax : spec_max_batch_size C = max_batch_size_of C := spec_max_batch_size_eq C
  refine ⟨hmax.symm, ?_, ?_, ?_⟩
  · unfold batch_size_of spec_effective_default
    rw [hmax]
    have h : ((max_batch_size_of C : ℚ) * (3 / 4 : ℚ)) =
        ((3 * max_batch_size_of C : ℕ) : ℚ) / ((4 : ℕ) : ℚ) := by
      push_cast
      ring
    rw [h, Nat.floor_div_nat, Nat.floor_natCast]
    rfl
  · intro ho
    simp only [batch_size_of, spec_effective_override]
    rw [if_pos ho, hmax]
  · intro ho
    simp only [batch_size_of]
    rw [if_neg (by omega)]

/-- Claim C5 (counterexample): with an explicit override of `0` and the
Note entity's 7 columns, the code returns
`floor(max_batch_size * 0.75) = 3510`, not the claimed
`min(0, max_batch_size) = 0`. -/
theorem C5_counterexample :
    batch_size_of (some 0) 7 = 3510 ∧
      spec_effective_override 0 7 = 0 ∧
      batch_size_of (some 0) 7 ≠ spec_effective_override 0 7 := by
  have h : spec_effective_override 0 7 = 0 := by
    unfold spec_effective_override
    rw [spec_max_batch_size_eq]
    decide
  refine ⟨by decide, h, ?_⟩
  rw [h]
  decide

/-- Witness for `C5_amended_formulas` at `C = 7`, `o = 4000`
(positive-override branch) and at `o = -1` (ignored-override branch). -/
theorem C5_witness :
    max_batch_size_of 7 = spec_max_batch_size 7 ∧
      batch_size_of (some 4000) 7 = spec_effective_override 4000 7 ∧
      batch_size_of (some (-1)) 7 = batch_size_of none 7 :=
  ⟨(C5_amended_formulas 7 4000).1,
    (C5_amended_formulas 7 4000).2.2.1 (by norm_num),
    (C5_amended_formulas 7 (-1)).2.2.2 (by norm_num)⟩

/-! ## Claims C8 and C9: conflict-target resolution -/

/-- An entity with no individually-unique column, one declared
two-column uniqueness constraint over `a, b`, and a third plain column
`c` — the shape claim C8 is about. -/
def abSchema : EntitySchema :=
  { userColumns :=
      [⟨"a", false, Value.str ""⟩,
       ⟨"b", false, Value.str ""⟩,
       ⟨"c", false, Value.str ""⟩]
    constraints := [⟨"uq_a_b", ["a", "b"]⟩]
    insert_batch_size_override := none }

/-- Claim C8 (counterexample): for `abSchema` (no unique column, exactly
one constraint over `a, b`) the single-constraint branch of
`_add_on_conflict_params` sets the update-column list to *all*
non-unique non-system columns `["a", "b", "c"]` — it does not subtract
the constraint's member columns, while the claim requires exactly the
non-system columns not part of the constraint, i.e. `["c"]`. -/
theorem C8_counterexample :
    unique_columns abSchema = [] ∧
      abSchema.constraints = [⟨"uq_a_b", ["a", "b"]⟩] ∧
      (add_on_conflict_params abSchema).1 =
        ⟨some (ConflictTarget.constr "uq_a_b"), OnConflictAction.doUpdate,
          ["a", "b", "c"]⟩ ∧
      (["a", "b", "c"] : List String) ≠ ["c"] := by
  refine ⟨by decide, rfl, by decide, by decide⟩

/-- Claim C8 (corrected): when the entity does not have exactly one
unique column but declares exactly one constraint, the upsert clause
targets that constraint with DO UPDATE, and its update-column list is
exactly the *non-unique, non-system* columns — including any constraint
member columns that are not individually unique (the source calls
`_on_conflict_update_columns()` without excluding the constraint's
columns). -/
theorem C8_amended_constraint_target (s : EntitySchema) (ct : ConstraintMeta)
    (hu : (unique_columns s).length ≠ 1) (hct : s.constraints = [ct]) :
    (add_on_conflict_params s).1.target = some (ConflictTarget.constr ct.name) ∧
      (add_on_conflict_params s).1.action = OnConflictAction.doUpdate ∧
      ∀ n : String,
        n ∈ (add_on_conflict_params s).1.values ↔
          n ∉ excluded_column_names ∧
            ∃ c ∈ allColumns s, c.name = n ∧ c.unique = false := by
  have hbranch : add_on_conflict_params s =
      (⟨some (ConflictTarget.constr ct.name), OnConflictAction.doUpdate,
        (on_conflict_update_columns s).map (·.name)⟩, false) := by
    unfold add_on_conflict_params
    match hm : unique_columns s with
    | [u] => rw [hm] at hu; simp at hu
    | [] => rw [hct]
    | u :: u2 :: us => rw [hct]
  rw [hbranch]
  refine ⟨rfl, rfl, ?_⟩
  intro n
  simp only [on_conflict_update_columns, List.mem_map, List.mem_filter]
  constructor
  · rintro ⟨c, ⟨hc, hflt⟩, hn⟩
    rw [Bool.and_eq_true, Bool.not_eq_true', Bool.not_eq_true'] at hflt
    have hnc : c.name ∉ excluded_column_names := by
      have h2 := hflt.2
      simp at h2
      exact h2
    subst hn
    exact ⟨hnc, c, hc, rfl, hflt.1⟩
  · rintro ⟨hnex, c, hc, hn, huniq⟩
    refine ⟨c, ⟨hc, ?_⟩, hn⟩
    rw [Bool.and_eq_true, Bool.not_eq_true', Bool.not_eq_true']
    refine ⟨huniq, ?_⟩
    subst hn
    simp [hnex]

/-- Witness for `C8_amended_constraint_target` at `abSchema`: the clause
targets `uq_a_b` with DO UPDATE and `"a"` (a constraint member) is among
the update columns. -/
theorem C8_witness :
    (add_on_conflict_params abSchema).1.target =
        some (ConflictTarget.constr "uq_a_b") ∧
      (add_on_conflict_params abSchema).1.action = OnConflictAction.doUpdate ∧
      ("a" ∈ (add_on_conflict_params abSchema).1.values ↔
        "a" ∉ excluded_column_names ∧
          ∃ c ∈ allColumns abSchema, c.name = "a" ∧ c.unique = false) :=
  ⟨(C8_amended_constraint_target abSchema ⟨"uq_a_b", ["a", "b"]⟩ (by decide) rfl).1,
    (C8_amended_constraint_target abSchema ⟨"uq_a_b", ["a", "b"]⟩ (by decide) rfl).2.1,
    (C8_amended_constraint_target abSchema ⟨"uq_a_b", ["a", "b"]⟩ (by decide) rfl).2.2 "a"⟩

/-- With a bare `DO NOTHING` clause (no target), a single-row insert
never raises: a conflicting row is skipped with the store unchanged. -/
theorem execInsertOne_doNothing_ok (s : EntitySchema) (vals : List String)
    (st : StoreState) (e : Entity) :
    ∃ res, execInsertOne s
        (some ⟨none, OnConflictAction.doNothing, vals⟩) st e = Except.ok res := by
  unfold execInsertOne
  cases hconf : findConflict s st.rows (resolvedId st e) e with
  | none => exact ⟨_, rfl⟩
  | some tr =>
    cases tr with
    | mk t r =>
      refine ⟨(st, none), ?_⟩
      simp

/-- A whole multi-row insert under a bare `DO NOTHING` clause never
raises. -/
theorem execInsertRows_doNothing_ok (s : EntitySchema) (vals : List String) :
    ∀ (es : List Entity) (st : StoreState),
      ∃ res, execInsertRows s
          (some ⟨none, OnConflictAction.doNothing, vals⟩) st es = Except.ok res := by
  intro es
  induction es with
  | nil => intro st; exact ⟨_, rfl⟩
  | cons e rest ih =>
    intro st
    obtain ⟨⟨st1, oid⟩, h1⟩ := execInsertOne_doNothing_ok s vals st e
    obtain ⟨⟨st2, ids⟩, h2⟩ := ih st1
    refine ⟨(st2, oid.toList ++ ids), ?_⟩
    simp only [execInsertRows, h1, h2]

/-- Claim C9 (confirmed): with zero or multiple candidate targets
(`len(unique_cols) != 1` and `len(constraints) != 1`),
`_add_on_conflict_params` attaches a bare `ON CONFLICT DO NOTHING`
clause and logs the `NOT SURE WHAT TO DO HERE!` warning, and under that
clause `upsert_many` never fails on conflicts — conflicting rows are
silently skipped. -/
theorem C9_do_nothing_fallback (s : EntitySchema)
    (hu : (unique_columns s).length ≠ 1) (hc : s.constraints.length ≠ 1) :
    add_on_conflict_params s =
        (⟨none, OnConflictAction.doNothing, []⟩, true) ∧
      ∀ (now : Value) (st : StoreState) (dtos : List Dict),
        ∃ ids, (upsert_many s now st dtos).2 = Except.ok ids := by
  have hbranch : add_on_conflict_params s =
      (⟨none, OnConflictAction.doNothing, []⟩, true) := by
    unfold add_on_conflict_params
    match hm : unique_columns s with
    | [u] => rw [hm] at hu; simp at hu
    | [] =>
      match hmc : s.constraints with
      | [ct] => rw [hmc] at hc; simp at hc
      | [] => rfl
      | ct :: ct2 :: cts => rfl
    | u :: u2 :: us =>
      match hmc : s.constraints with
      | [ct] => rw [hmc] at hc; simp at hc
      | [] => rfl
      | ct :: ct2 :: cts => rfl
  have hclause : (add_on_conflict_params s).1 =
      ⟨none, OnConflictAction.doNothing, []⟩ := by rw [hbranch]
  refine ⟨hbranch, ?_⟩
  intro now st dtos
  unfold upsert_many upsert_many_stmts
  rw [hclause]
  generalize batch_generator s dtos = bs
  induction bs generalizing st with
  | nil => exact ⟨[], rfl⟩
  | cons b rest ih =>
    obtain ⟨⟨st2, ids1⟩, h1⟩ :=
      execInsertRows_doNothing_ok s [] (b.map (mkEntity s now)) st
    obtain ⟨ids2, h2⟩ := ih st2
    simp only [List.map_cons, runStmts, execInsertStmt, h1]
    cases hrest : runStmts s st2
        (rest.map (fun b => ⟨b.map (mkEntity s now),
          some ⟨none, OnConflictAction.doNothing, []⟩⟩)) AppError.conflict with
    | mk st3 res =>
      rw [hrest] at h2
      cases res with
      | error e2 => simp at h2
      | ok ids3 => exact ⟨ids1 ++ ids3, rfl⟩

/-- A schema with two unique columns and no constraints: one of the
ambiguous shapes claim C9 covers. -/
def ambiguousSchema : EntitySchema :=
  { userColumns :=
      [⟨"sku", true, Value.str ""⟩,
       ⟨"ean", true, Value.str ""⟩,
       ⟨"label", false, Value.str ""⟩]
    constraints := []
    insert_batch_size_override := none }

/-- Witness for `C9_do_nothing_fallback` at `ambiguousSchema` and a
store/input where the second row collides on `sku` and is skipped. -/
theorem C9_witness :
    add_on_conflict_params ambiguousSchema =
        (⟨none, OnConflictAction.doNothing, []⟩, true) ∧
      ∃ ids, (upsert_many ambiguousSchema (Value.int 0) ⟨[], 1⟩
          [[("sku", Value.str "s1")], [("sku", Value.str "s1")]]).2 =
        Except.ok ids :=
  ⟨(C9_do_nothing_fallback ambiguousSchema (by decide) (by decide)).1,
    (C9_do_nothing_fallback ambiguousSchema (by decide) (by decide)).2
      (Value.int 0) ⟨[], 1⟩ [[("sku", Value.str "s1")], [("sku", Value.str "s1")]]⟩

/-! ## Concrete fixtures: the Note entity -/

/-- The `Note` entity of `src/modules/note/models.py`: unique `title`,
plain `body`, integer `rating`, no declared constraints, no batch-size
override.  Piccolo's client-side defaults are `""` for `Varchar` and `0`
for `Integer`. -/
def noteSchema : EntitySchema :=
  { userColumns :=
      [⟨"title", true, Value.str ""⟩,
       ⟨"body", false, Value.str ""⟩,
       ⟨"rating", false, Value.int 0⟩]
    constraints := []
    insert_batch_size_override := none }

/-- A stored Note row. -/
def noteRow (i : Int) (t b : String) (r : Int) : Row :=
  ⟨i, [("created_at", Value.int 0), ("updated_at", Value.int 0),
       ("is_active", Value.bool true), ("title", Value.str t),
       ("body", Value.str b), ("rating", Value.int r)]⟩

/-- A `NoteUpdateWithId` DTO (field declaration order of
`src/modules/note/dtos.py`: inherited `id`, `is_active`, then `title`,
`body`, `rating`). -/
def noteUpd (i : Int) (t b : Option String) (r : Option Int) :
    UpdateWithIdDto :=
  { id := i
    fields :=
      [("is_active", none), ("title", t.map Value.str),
       ("body", b.map Value.str), ("rating", r.map Value.int)] }

/-- A store holding three Note rows with ids 1, 2, 3. -/
def noteStore : StoreState :=
  ⟨[noteRow 1 "t1" "b1" 1, noteRow 2 "t2" "b2" 2, noteRow 3 "t3" "b3" 3],
    4⟩

/-! ## Claim C1: the shape of the update statements -/

/-- The per-batch statement that the spec describes for
`update_many_with_id`: the SET column list and one positionally encoded
VALUES row per DTO. -/
structure SpecUpdateStmt where
  setColumns : List String
  valuesRows : List (List Value)
deriving DecidableEq, Repr

/-- Modelled from the spec: "For each batch: build one `UPDATE <table>
AS t SET col = COALESCE(v.col, t.col), ... FROM (VALUES (row)...) AS
v(col_names...) WHERE t.id = v.id RETURNING t.id` statement", encoding
every declared column positionally (absent fields as NULL) and batching
the raw input with no grouping.  This statement shape does not exist in
`src/models/base.py`; the definition follows the spec's words for the
refinement comparison of claim C1. -/
def spec_update_many_stmts (s : EntitySchema)
    (dtos : List UpdateWithIdDto) : List SpecUpdateStmt :=
  (batch_generator s dtos).map (fun batch =>
    { setColumns := all_column_names s
      valuesRows := batch.map (fun d =>
        (all_column_names s).map (fun c =>
          (dlookup (dict_without_unset d) c).getD Value.null)) })

/-- Claim C1 (counterexample): for the two heterogeneous update DTOs
`{id:1, title:"x"}` and `{id:2, body:"y"}` the spec's construction
builds exactly one UPDATE-FROM-VALUES statement for the single batch,
but the implementation groups the input by present-key sets and builds
two `INSERT ... ON CONFLICT (id) DO UPDATE` statements — so it is false
that one statement per batch is built and that no grouping happens. -/
theorem C1_counterexample :
    (spec_update_many_stmts noteSchema
        [noteUpd 1 (some "x") none none, noteUpd 2 none (some "y") none]).length
        = 1 ∧
      (update_many_with_id_stmts noteSchema (Value.int 100)
        [noteUpd 1 (some "x") none none, noteUpd 2 none (some "y") none]).length
        = 2 ∧
      group_dicts_by_keys
          [noteUpd 1 (some "x") none none, noteUpd 2 none (some "y") none] ≠
        [[dict_without_unset (noteUpd 1 (some "x") none none),
          dict_without_unset (noteUpd 2 none (some "y") none)]] := by
  refine ⟨by decide, by decide, by decide⟩

theorem groupInsert_ne_nil (k : List String) (d : Dict)
    (acc : List (List String × List Dict)) : groupInsert k d acc ≠ [] := by
  cases acc with
  | nil => simp [groupInsert]
  | cons p rest =>
    cases p with
    | mk k2 ds =>
      unfold groupInsert
      by_cases h : k = k2 <;> simp [h]

theorem group_fold_ne_nil (dtos : List UpdateWithIdDto) :
    ∀ acc : List (List String × List Dict), acc ≠ [] →
      dtos.foldl (fun acc dto =>
        groupInsert (key_tuple (dict_without_unset dto))
          (dict_without_unset dto) acc) acc ≠ [] := by
  induction dtos with
  | nil => intro acc h; exact h
  | cons dto rest ih =>
    intro acc h
    exact ih _ (groupInsert_ne_nil _ _ acc)

theorem groupInsert_snd_ne_nil (k : List String) (d : Dict)
    (acc : List (List String × List Dict))
    (h : ∀ p ∈ acc, p.2 ≠ []) :
    ∀ p ∈ groupInsert k d acc, p.2 ≠ [] := by
  induction acc with
  | nil =>
    intro p hp
    simp only [groupInsert, List.mem_singleton] at hp
    subst hp
    simp
  | cons q rest ih =>
    cases q with
    | mk k2 ds =>
      intro p hp
      unfold groupInsert at hp
      by_cases hk : k = k2
      · rw [if_pos hk] at hp
        rcases List.mem_cons.mp hp with h1 | h1
        · subst h1; simp
        · exact h p (List.mem_cons_of_mem _ h1)
      · rw [if_neg hk] at hp
        rcases List.mem_cons.mp hp with h1 | h1
        · subst h1
          exact h ⟨k2, ds⟩ (List.mem_cons_self _ _)
        · exact ih (fun q2 hq2 => h q2 (List.mem_cons_of_mem _ hq2)) p h1

theorem group_fold_snd_ne_nil (dtos : List UpdateWithIdDto) :
    ∀ acc : List (List String × List Dict),
      (∀ p ∈ acc, p.2 ≠ []) →
      ∀ p ∈ dtos.foldl (fun acc dto =>
        groupInsert (key_tuple (dict_without_unset dto))
          (dict_without_unset dto) acc) acc, p.2 ≠ [] := by
  induction dtos with
  | nil => intro acc h; exact h
  | cons dto rest ih =>
    intro acc h
    exact ih _ (groupInsert_snd_ne_nil _ _ acc h)

/-- Every group produced by `group_dicts_by_keys` is non-empty. -/
theorem group_dicts_by_keys_ne_nil (dtos : List UpdateWithIdDto)
    (g : List Dict) (hg : g ∈ group_dicts_by_keys dtos) : g ≠ [] := by
  unfold group_dicts_by_keys at hg
  rcases List.mem_map.mp hg with ⟨p, hp, hpg⟩
  subst hpg
  exact group_fold_snd_ne_nil dtos [] (by simp) p hp

theorem chunksOf_ne_nil_of_ne_nil (bs : Nat) (l : List α) (h : l ≠ []) :
    chunksOf bs l ≠ [] := by
  cases l with
  | nil => exact absurd rfl h
  | cons x xs => rw [chunksOf_cons]; simp

/-- `group_dicts_by_keys` of a non-empty input is non-empty. -/
theorem group_dicts_by_keys_of_ne_nil (dtos : List UpdateWithIdDto)
    (hne : dtos ≠ []) : group_dicts_by_keys dtos ≠ [] := by
  unfold group_dicts_by_keys
  cases dtos with
  | nil => exact absurd rfl hne
  | cons dto rest =>
    intro hmap
    rw [List.map_eq_nil_iff] at hmap
    rw [List.foldl_cons] at hmap
    exact group_fold_ne_nil rest _ (groupInsert_ne_nil _ _ []) hmap

theorem map_flatMap_general (l : List α) (f : α → β) (g : β → List γ) :
    (l.map f).flatMap g = l.flatMap (fun a => g (f a)) := by
  induction l with
  | nil => rfl
  | cons a as ih => simp only [List.map_cons, List.flatMap_cons, ih]

theorem flatMap_flatMap_general (l : List α) (f : α → List β)
    (g : β → List γ) :
    (l.flatMap f).flatMap g = l.flatMap (fun a => (f a).flatMap g) := by
  induction l with
  | nil => rfl
  | cons a as ih =>
    simp only [List.flatMap_cons, List.flatMap_append, ih]

theorem flatMap_map_chunks_aux (bs : Nat) (f : α → β) :
    ∀ (n : Nat) (l : List α), l.length ≤ n →
      (chunksOf bs l).flatMap (fun b => b.map f) = l.map f := by
  intro n
  induction n with
  | zero =>
    intro l h
    cases l with
    | nil => rfl
    | cons x xs => simp at h
  | succ n ih =>
    intro l h
    cases l with
    | nil => rfl
    | cons x xs =>
      rw [chunksOf_cons, List.flatMap_cons, ih _ ?_, ← List.map_append,
        List.cons_append, List.take_append_drop]
      rw [List.length_drop]
      simp only [List.length_cons] at h
      omega

/-- Mapping over the concatenation of `batch_generator`'s batches is
mapping over the input. -/
theorem flatMap_map_chunks (bs : Nat) (f : α → β) (l : List α) :
    (chunksOf bs l).flatMap (fun b => b.map f) = l.map f :=
  flatMap_map_chunks_aux bs f l.length l le_rfl

theorem flatMap_map_eq_map_flatten (f : α → β) (l : List (List α)) :
    l.flatMap (fun g => g.map f) = l.flatten.map f := by
  induction l with
  | nil => rfl
  | cons g gs ih =>
    simp only [List.flatMap_cons, List.flatten_cons, List.map_append, ih]

/-- Every column name in `cols_to_update` differs from `"id"`. -/
theorem cols_to_update_ne_id (batch : List Dict) (c : String)
    (hc : c ∈ cols_to_update batch) : c ≠ "id" := by
  cases batch with
  | nil => simp [cols_to_update] at hc
  | cons b0 rest =>
    unfold cols_to_update at hc
    rcases List.mem_filter.mp hc with ⟨_, hpred⟩
    rw [Bool.and_eq_true] at hpred
    exact of_decide_eq_true hpred.1

/-- Claim C1 (corrected): for every non-empty input, the implementation
groups the DTOs by their present-key sets and builds one
`INSERT ... ON CONFLICT (id) DO UPDATE` statement per (group, batch)
pair — the statement count is the sum of the groups' batch counts, at
least one statement is built, every statement targets `(id)` with
DO UPDATE and an update-column list containing `updated_at` but never
`id`, and the statements' rows are the grouped (not submission-ordered)
dicts' entities.  No `UPDATE ... FROM (VALUES ...)` statement is built
(see the counterexample against the claimed shape). -/
theorem C1_amended_stmt_structure (s : EntitySchema) (now : Value)
    (dtos : List UpdateWithIdDto) (hne : dtos ≠ []) :
    (update_many_with_id_stmts s now dtos).length =
        ((group_dicts_by_keys dtos).map
          (fun g => (batch_generator s g).length)).sum ∧
      update_many_with_id_stmts s now dtos ≠ [] ∧
      (∀ q ∈ update_many_with_id_stmts s now dtos,
        ∃ vals, q.onConflict = some ⟨some (ConflictTarget.col "id"),
            OnConflictAction.doUpdate, vals⟩ ∧
          "updated_at" ∈ vals ∧ "id" ∉ vals) ∧
      (update_many_with_id_stmts s now dtos).flatMap InsertStmt.rows =
        ((group_dicts_by_keys dtos).flatten).map (mkEntity s now) := by
  refine ⟨?_, ?_, ?_, ?_⟩
  · unfold update_many_with_id_stmts
    rw [List.length_flatMap]
    congr 1
    apply List.map_congr_left
    intro g _
    simp [List.length_map]
  · unfold update_many_with_id_stmts
    cases hg : group_dicts_by_keys dtos with
    | nil => exact absurd hg (group_dicts_by_keys_of_ne_nil dtos hne)
    | cons g gs =>
      have hgne : g ≠ [] :=
        group_dicts_by_keys_ne_nil dtos g (by rw [hg]; exact List.mem_cons_self _ _)
      have hbne : batch_generator s g ≠ [] :=
        chunksOf_ne_nil_of_ne_nil _ g hgne
      rw [List.flatMap_cons]
      intro happ
      rcases List.append_eq_nil.mp happ with ⟨hmapnil, _⟩
      rw [List.map_eq_nil_iff] at hmapnil
      exact hbne hmapnil
  · intro q hq
    unfold update_many_with_id_stmts at hq
    rcases List.mem_flatMap.mp hq with ⟨g, hg, hqg⟩
    rcases List.mem_map.mp hqg with ⟨b, hb, hqb⟩
    subst hqb
    refine ⟨cols_to_update b ++ ["updated_at"], rfl, ?_, ?_⟩
    · exact List.mem_append_right _ (List.mem_singleton.mpr rfl)
    · intro hid
      rcases List.mem_append.mp hid with h1 | h1
      · exact cols_to_update_ne_id b "id" h1 rfl
      · rw [List.mem_singleton] at h1
        exact absurd h1 (by decide)
  · unfold update_many_with_id_stmts
    rw [flatMap_flatMap_general]
    have hinner : ∀ g : List Dict,
        ((batch_generator s g).map (updateStmtFor s now)).flatMap
            InsertStmt.rows = g.map (mkEntity s now) := by
      intro g
      rw [map_flatMap_general]
      exact flatMap_map_chunks _ _ g
    calc (group_dicts_by_keys dtos).flatMap (fun g =>
            ((batch_generator s g).map (updateStmtFor s now)).flatMap
              InsertStmt.rows)
        = (group_dicts_by_keys dtos).flatMap
            (fun g => g.map (mkEntity s now)) := by
          simp only [hinner]
      _ = ((group_dicts_by_keys dtos).flatten).map (mkEntity s now) :=
          flatMap_map_eq_map_flatten _ _

/-- Witness for `C1_amended_stmt_structure` at the counterexample input. -/
theorem C1_witness :
    (update_many_with_id_stmts noteSchema (Value.int 100)
        [noteUpd 1 (some "x") none none, noteUpd 2 none (some "y") none]).length =
        ((group_dicts_by_keys
            [noteUpd 1 (some "x") none none, noteUpd 2 none (some "y") none]).map
          (fun g => (batch_generator noteSchema g).length)).sum ∧
      update_many_with_id_stmts noteSchema (Value.int 100)
        [noteUpd 1 (some "x") none none, noteUpd 2 none (some "y") none] ≠ [] :=
  ⟨(C1_amended_stmt_structure noteSchema (Value.int 100) _ (by decide)).1,
    (C1_amended_stmt_structure noteSchema (Value.int 100) _ (by decide)).2.1⟩

/-- Decidable equality for `Except`, so that concrete runs of the bulk
operations can be checked by `decide`. -/
instance {ε α : Type} [DecidableEq ε] [DecidableEq α] :
    DecidableEq (Except ε α) := fun x y =>
  match x, y with
  | Except.ok a, Except.ok b =>
    if h : a = b then isTrue (by rw [h])
    else isFalse (by intro hh; cases hh; exact h rfl)
  | Except.error a, Except.error b =>
    if h : a = b then isTrue (by rw [h])
    else isFalse (by intro hh; cases hh; exact h rfl)
  | Except.ok a, Except.error b => isFalse (by intro hh; cases hh)
  | Except.error a, Except.ok b => isFalse (by intro hh; cases hh)

/-! ## Claim C3: non-existent ids are not dropped — they are inserted -/

/-- The `id` entry `dict_without_unset` always places first makes the
constructed entity carry the DTO's explicit id. -/
theorem mkEntity_idVal (s : EntitySchema) (now : Value)
    (dto : UpdateWithIdDto) :
    (mkEntity s now (dict_without_unset dto)).idVal = some dto.id := rfl

/-- For a single DTO the update path builds exactly one statement over
the one-dict group. -/
theorem update_stmts_singleton (s : EntitySchema) (now : Value)
    (dto : UpdateWithIdDto) :
    update_many_with_id_stmts s now [dto] =
      [updateStmtFor s now [dict_without_unset dto]] := by
  unfold update_many_with_id_stmts group_dicts_by_keys batch_generator
  simp [groupInsert, chunksOf_cons, chunksOf_nil]

/-- Claim C3 (corrected): a DTO whose id matches no stored row (and
collides with nothing else) does not raise — but it is not silently
dropped either: the `INSERT ... ON CONFLICT (id) DO UPDATE` statement
finds no conflict and *inserts a brand-new row* with that id (absent
columns filled with defaults), and the returned identifier list is
`[dto.id]`, the same length as the input. -/
theorem C3_amended_upsert_behavior (s : EntitySchema) (now : Value)
    (st : StoreState) (dto : UpdateWithIdDto)
    (hconf : findConflict s st.rows dto.id
      (mkEntity s now (dict_without_unset dto)) = none) :
    update_many_with_id s now st [dto] =
      (⟨st.rows ++ [⟨dto.id, (mkEntity s now (dict_without_unset dto)).data⟩],
        st.nextId⟩, Except.ok [dto.id]) := by
  unfold update_many_with_id
  rw [update_stmts_singleton]
  have hrid : resolvedId st (mkEntity s now (dict_without_unset dto)) =
      dto.id := by
    unfold resolvedId
    rw [mkEntity_idVal]
    rfl
  have hnext : resolvedNext st (mkEntity s now (dict_without_unset dto)) =
      st.nextId := by
    unfold resolvedNext
    rw [mkEntity_idVal]
  simp only [runStmts, execInsertStmt, updateStmtFor, List.map_cons,
    List.map_nil, execInsertRows, execInsertOne, hrid, hnext, hconf]
  simp

/-- Claim C3 (counterexample): on a store holding ids 1–3,
`update_many_with_id([{id: 999999, title: "x"}])` returns `[999999]`
(length 1, containing 999999) and creates a new row with id 999999 —
the claim's expected id list of length 0 is wrong, and so is the claim
that the id is simply dropped. -/
theorem C3_counterexample :
    (update_many_with_id noteSchema (Value.int 100) noteStore
        [noteUpd 999999 (some "x") none none]).2 = Except.ok [999999] ∧
      (rowById (update_many_with_id noteSchema (Value.int 100) noteStore
        [noteUpd 999999 (some "x") none none]).1 999999).isSome = true := by
  refine ⟨by decide, by decide⟩

/-- Witness for `C3_amended_upsert_behavior` at the counterexample
input. -/
theorem C3_witness :
    update_many_with_id noteSchema (Value.int 100) noteStore
        [noteUpd 999999 (some "x") none none] =
      (⟨noteStore.rows ++ [⟨999999, (mkEntity noteSchema (Value.int 100)
          (dict_without_unset (noteUpd 999999 (some "x") none none))).data⟩],
        noteStore.nextId⟩, Except.ok [999999]) :=
  C3_amended_upsert_behavior noteSchema (Value.int 100) noteStore
    (noteUpd 999999 (some "x") none none) (by decide)

/-! ## Claim C7: identifier order -/

/-- Claim C7 (counterexample): three update DTOs submitted with ids
`[1, 2, 3]` but alternating key sets come back as `[1, 3, 2]` — the
key-set grouping of `update_many_with_id` reorders identifiers across
groups, so the bulk result is not in submission order. -/
theorem C7_counterexample :
    ([noteUpd 1 (some "x") none none, noteUpd 2 none (some "y") none,
        noteUpd 3 (some "z") none none].map UpdateWithIdDto.id = [1, 2, 3]) ∧
      (update_many_with_id noteSchema (Value.int 100) noteStore
          [noteUpd 1 (some "x") none none, noteUpd 2 none (some "y") none,
            noteUpd 3 (some "z") none none]).2 = Except.ok [1, 3, 2] := by
  refine ⟨by decide, by decide⟩

/-! ## Claim C6: conflicts abort the call, earlier batches stay committed -/

/-- If the first `k` statements run cleanly from `st` to `st_k` and
statement `k` raises a uniqueness violation there, the whole run returns
the state `st_k` (earlier statements committed) and the wrapped error;
statements after `k` are never executed. -/
theorem runStmts_fail_at (s : EntitySchema) (wrap : String → AppError)
    (m : String) :
    ∀ (qs : List InsertStmt) (st st_k : StoreState) (ids : List Int)
      (k : Nat) (hk : k < qs.length),
      runStmts s st (qs.take k) wrap = (st_k, Except.ok ids) →
      execInsertStmt s st_k (qs.get ⟨k, hk⟩) =
        Except.error (DbError.uniqueViolation m) →
      runStmts s st qs wrap = (st_k, Except.error (wrap m)) := by
  intro qs
  induction qs with
  | nil =>
    intro st st_k ids k hk
    simp at hk
  | cons q rest ih =>
    intro st st_k ids k hk hpre hfail
    cases k with
    | zero =>
      simp only [List.take_zero, runStmts] at hpre
      have hst : st = st_k := congrArg Prod.fst hpre
      subst hst
      simp only [List.get] at hfail
      simp only [runStmts, hfail]
    | succ k =>
      rw [List.take_succ_cons] at hpre
      simp only [runStmts] at hpre
      cases hq : execInsertStmt s st q with
      | error err =>
        rw [hq] at hpre
        cases err with
        | uniqueViolation m2 =>
          have := congrArg Prod.snd hpre
          simp at this
      | ok p =>
        cases p with
        | mk st1 ids1 =>
          rw [hq] at hpre
          dsimp only at hpre
          cases hrest : runStmts s st1 (rest.take k) wrap with
          | mk st2 res =>
            rw [hrest] at hpre
            cases res with
            | error e2 =>
              have := congrArg Prod.snd hpre
              simp at this
            | ok ids2 =>
              have hst2 : st2 = st_k := congrArg Prod.fst hpre
              subst hst2
              have hk2 : k < rest.length := by
                simp only [List.length_cons] at hk
                omega
              have hget : (q :: rest).get ⟨k + 1, hk⟩ = rest.get ⟨k, hk2⟩ :=
                rfl
              rw [hget] at hfail
              have hrec := ih st1 st2 ids2 k hk2 hrest hfail
              simp only [runStmts, hq, hrec]

/-- Claim C6 (confirmed): if, running `create_many`'s batches strictly
sequentially, the batches before `k` commit cleanly reaching `st_k` and
batch `k`'s insert raises a uniqueness violation with message `m`, then
the whole call returns exactly `st_k` (batches before `k` stay
committed, batches after `k` are never issued) together with a single
`ConflictException` carrying the store's message. -/
theorem C6_conflict_abort (s : EntitySchema) (now : Value)
    (st : StoreState) (dtos : List Dict) (k : Nat) (st_k : StoreState)
    (ids : List Int) (m : String)
    (hk : k < (create_many_stmts s now dtos).length)
    (hpre : runStmts s st ((create_many_stmts s now dtos).take k)
      AppError.conflict = (st_k, Except.ok ids))
    (hfail : execInsertStmt s st_k ((create_many_stmts s now dtos).get
      ⟨k, hk⟩) = Except.error (DbError.uniqueViolation m)) :
    create_many s now st dtos = (st_k, Except.error (AppError.conflict m)) :=
  runStmts_fail_at s AppError.conflict m (create_many_stmts s now dtos)
    st st_k ids k hk hpre hfail

/-- The Note entity with a batch-size override of 1, forcing one
statement per row. -/
def noteSchemaB1 : EntitySchema :=
  { noteSchema with insert_batch_size_override := some 1 }

/-- A full `NoteCreate.dict()` (field order: inherited `is_active`, then
`title`, `body`, `rating`). -/
def noteCreate (t b : String) (r : Int) : Dict :=
  [("is_active", Value.bool true), ("title", Value.str t),
   ("body", Value.str b), ("rating", Value.int r)]

/-- Witness for `C6_conflict_abort`: with batch size forced to 1,
`create_many([t9, t1])` against a store already holding title `t1`
commits the `t9` batch (the returned state contains it, with id 4) and
then aborts on the `t1` batch with a ConflictException carrying the
store's message — the partial-commit behaviour the claim describes. -/
theorem C6_witness :
    create_many noteSchemaB1 (Value.int 100) noteStore
        [noteCreate "t9" "b" 1, noteCreate "t1" "b" 2] =
      (⟨noteStore.rows ++ [⟨4, (mkEntity noteSchemaB1 (Value.int 100)
          (noteCreate "t9" "b" 1)).data⟩], 5⟩,
        Except.error (AppError.conflict
          "duplicate key value violates unique constraint on column title")) :=
  C6_conflict_abort noteSchemaB1 (Value.int 100) noteStore
    [noteCreate "t9" "b" 1, noteCreate "t1" "b" 2] 1
    ⟨noteStore.rows ++ [⟨4, (mkEntity noteSchemaB1 (Value.int 100)
      (noteCreate "t9" "b" 1)).data⟩], 5⟩ [4]
    "duplicate key value violates unique constraint on column title"
    (by decide) (by decide) (by decide)

/-- The ids a bigserial column hands out to `n` rows inserted in order,
starting at `start`. -/
def seqIds (start : Int) : Nat → List Int
  | 0 => []
  | n + 1 => start :: seqIds (start + 1) n

theorem seqIds_append (a : Int) (n m : Nat) :
    seqIds a n ++ seqIds (a + n) m = seqIds a (n + m) := by
  induction n generalizing a with
  | zero => simp [seqIds]
  | succ n ih =>
    simp only [seqIds, List.cons_append]
    have harr : a + ↑(n + 1) = (a + 1) + ↑n := by push_cast; ring
    rw [harr, ih (a + 1), Nat.succ_add]
    rfl

/-- A row with no explicit id inserted without an ON CONFLICT clause
either fails or takes the next serial id. -/
theorem execInsertOne_noclause_ok (s : EntitySchema) (st st1 : StoreState)
    (e : Entity) (oid : Option Int) (hid : e.idVal = none)
    (h : execInsertOne s none st e = Except.ok (st1, oid)) :
    oid = some st.nextId ∧ st1.nextId = st.nextId + 1 := by
  have hrid : resolvedId st e = st.nextId := by
    unfold resolvedId
    rw [hid]
    rfl
  have hnext : resolvedNext st e = st.nextId + 1 := by
    unfold resolvedNext
    rw [hid]
  unfold execInsertOne at h
  cases hconf : findConflict s st.rows (resolvedId st e) e with
  | none =>
    rw [hconf] at h
    dsimp only at h
    have h1 := congrArg Prod.fst (Except.ok.inj h)
    have h2 := congrArg Prod.snd (Except.ok.inj h)
    simp only at h1 h2
    subst h2
    constructor
    · rw [hrid]
    · rw [← h1, hnext]
  | some tr =>
    cases tr with
    | mk t r =>
      rw [hconf] at h
      dsimp only at h
      cases h

theorem execInsertRows_noclause_ids (s : EntitySchema) :
    ∀ (es : List Entity) (st st2 : StoreState) (ids : List Int),
      (∀ e ∈ es, e.idVal = none) →
      execInsertRows s none st es = Except.ok (st2, ids) →
      ids = seqIds st.nextId es.length ∧
        st2.nextId = st.nextId + es.length := by
  intro es
  induction es with
  | nil =>
    intro st st2 ids hids hrun
    unfold execInsertRows at hrun
    have h1 := congrArg Prod.fst (Except.ok.inj hrun)
    have h2 := congrArg Prod.snd (Except.ok.inj hrun)
    simp only at h1 h2
    subst h2
    simp [seqIds, ← h1]
  | cons e rest ih =>
    intro st st2 ids hids hrun
    unfold execInsertRows at hrun
    cases hq : execInsertOne s none st e with
    | error err =>
      rw [hq] at hrun
      cases hrun
    | ok p =>
      cases p with
      | mk st1 oid =>
        rw [hq] at hrun
        dsimp only at hrun
        cases hr : execInsertRows s none st1 rest with
        | error err =>
          rw [hr] at hrun
          cases hrun
        | ok p2 =>
          cases p2 with
          | mk st3 ids2 =>
            rw [hr] at hrun
            dsimp only at hrun
            have h1 := congrArg Prod.fst (Except.ok.inj hrun)
            have h2 := congrArg Prod.snd (Except.ok.inj hrun)
            simp only at h1 h2
            obtain ⟨ho, hn⟩ := execInsertOne_noclause_ok s st st1 e oid
              (hids e (List.mem_cons_self _ _)) hq
            obtain ⟨hi2, hn2⟩ := ih st1 st3 ids2
              (fun e2 he2 => hids e2 (List.mem_cons_of_mem _ he2)) hr
            subst ho
            constructor
            · rw [← h2, hi2, hn]
              simp only [List.length_cons, seqIds, Option.toList]
              rfl
            · rw [← h1, hn2, hn]
              simp only [List.length_cons]
              push_cast
              ring

/-- Across sequentially executed plain-INSERT batches the returned ids
are exactly the serial ids in submission order. -/
theorem runStmts_create_ids (s : EntitySchema) (now : Value)
    (wrap : String → AppError) :
    ∀ (bs : List (List Dict)) (st st2 : StoreState) (ids : List Int),
      (∀ b ∈ bs, ∀ d ∈ b, entityId d = none) →
      runStmts s st (bs.map (fun b =>
        ⟨b.map (mkEntity s now), none⟩)) wrap = (st2, Except.ok ids) →
      ids = seqIds st.nextId ((bs.map List.length).sum) ∧
        st2.nextId = st.nextId + ((bs.map List.length).sum) := by
  intro bs
  induction bs with
  | nil =>
    intro st st2 ids hids hrun
    simp only [List.map_nil, runStmts] at hrun
    have h1 := congrArg Prod.fst hrun
    have h2 := congrArg Prod.snd hrun
    simp only at h1 h2
    have h2b : ids = [] := by
      cases h2
      rfl
    subst h2b
    simp [seqIds, ← h1]
  | cons b rest ih =>
    intro st st2 ids hids hrun
    simp only [List.map_cons, runStmts, execInsertStmt] at hrun
    cases hq : execInsertRows s none st (b.map (mkEntity s now)) with
    | error err =>
      rw [hq] at hrun
      cases err with
      | uniqueViolation m2 =>
        dsimp only at hrun
        have := congrArg Prod.snd hrun
        simp at this
    | ok p =>
      cases p with
      | mk st1 ids1 =>
        rw [hq] at hrun
        dsimp only at hrun
        cases hrest : runStmts s st1 (rest.map (fun b =>
            ⟨b.map (mkEntity s now), none⟩)) wrap with
        | mk st3 res =>
          rw [hrest] at hrun
          cases res with
          | error e2 =>
            have := congrArg Prod.snd hrun
            simp at this
          | ok ids2 =>
            have h1 := congrArg Prod.fst hrun
            have h2 := congrArg Prod.snd hrun
            simp only at h1 h2
            have h2b : ids1 ++ ids2 = ids := by
              cases h2
              rfl
            have hone : ∀ e ∈ b.map (mkEntity s now), e.idVal = none := by
              intro e he
              rcases List.mem_map.mp he with ⟨d, hd, hde⟩
              subst hde
              show entityId d = none
              exact hids b (List.mem_cons_self _ _) d hd
            obtain ⟨hi1, hn1⟩ := execInsertRows_noclause_ids s
              (b.map (mkEntity s now)) st st1 ids1 hone hq
            obtain ⟨hi2, hn2⟩ := ih st1 st3 ids2
              (fun b2 hb2 => hids b2 (List.mem_cons_of_mem _ hb2)) hrest
            rw [List.length_map] at hi1 hn1
            constructor
            · rw [← h2b, hi1, hi2, hn1]
              simp only [List.map_cons, List.sum_cons]
              rw [seqIds_append]
            · rw [← h1, hn2, hn1]
              simp only [List.map_cons, List.sum_cons]
              push_cast
              ring

/-- Under a DO UPDATE clause a row that executes successfully always
contributes an id to `RETURNING` (insert or update, never a skip). -/
theorem execInsertOne_doUpdate_isSome (s : EntitySchema)
    (c : ConflictClause) (st st1 : StoreState) (e : Entity)
    (oid : Option Int) (ha : c.action = OnConflictAction.doUpdate)
    (h : execInsertOne s (some c) st e = Except.ok (st1, oid)) :
    oid.isSome = true := by
  unfold execInsertOne at h
  cases hconf : findConflict s st.rows (resolvedId st e) e with
  | none =>
    rw [hconf] at h
    dsimp only at h
    have h2 := congrArg Prod.snd (Except.ok.inj h)
    simp only at h2
    rw [← h2]
    rfl
  | some tr =>
    cases tr with
    | mk t r =>
      rw [hconf] at h
      dsimp only at h
      rw [ha] at h
      by_cases htg : c.target = some t
      · rw [if_pos htg] at h
        by_cases hviol : rowViolatesUnique s st.rows (applyUpdate c.values e r)
        · rw [if_pos hviol] at h
          cases h
        · rw [if_neg hviol] at h
          have h2 := congrArg Prod.snd (Except.ok.inj h)
          simp only at h2
          rw [← h2]
          rfl
      · rw [if_neg htg] at h
        cases h

/-- Under a DO UPDATE clause the second component of a row's result is
its explicit id whenever it has one and the clause targets `(id)`. -/
theorem execInsertOne_target_id (s : EntitySchema) (c : ConflictClause)
    (st st1 : StoreState) (e : Entity) (oid : Option Int) (i : Int)
    (ha : c.action = OnConflictAction.doUpdate)
    (ht : c.target = some (ConflictTarget.col "id"))
    (hid : e.idVal = some i)
    (h : execInsertOne s (some c) st e = Except.ok (st1, oid)) :
    oid = some i := by
  have hrid : resolvedId st e = i := by
    unfold resolvedId
    rw [hid]
    rfl
  unfold execInsertOne at h
  rw [hrid] at h
  cases hconf : findConflict s st.rows i e with
  | none =>
    rw [hconf] at h
    dsimp only at h
    have h2 := congrArg Prod.snd (Except.ok.inj h)
    simp only at h2
    rw [← h2]
  | some tr =>
    cases tr with
    | mk t r =>
      rw [hconf] at h
      dsimp only at h
      rw [ha] at h
      by_cases htg : c.target = some t
      · rw [if_pos htg] at h
        by_cases hviol : rowViolatesUnique s st.rows (applyUpdate c.values e r)
        · rw [if_pos hviol] at h
          cases h
        · rw [if_neg hviol] at h
          have h2 := congrArg Prod.snd (Except.ok.inj h)
          simp only at h2
          rw [← h2]
          -- the conflict target equals (id), so the conflicting row was
          -- found by the primary-key probe and carries the explicit id
          have htid : t = ConflictTarget.col "id" := by
            rw [ht] at htg
            exact (Option.some.inj htg).symm
          subst htid
          have hr : r.rid = i := by
            unfold findConflict at hconf
            cases hfd : st.rows.find? (fun r2 => r2.rid == i) with
            | some r2 =>
              rw [hfd] at hconf
              have := List.find?_some hfd
              have hinj := (Option.some.inj hconf)
              have hr2 : r2 = r := congrArg Prod.snd hinj
              rw [← hr2]
              exact beq_iff_eq.mp this
            | none =>
              rw [hfd] at hconf
              -- the remaining probes never produce the column target "id"
              cases hus : (unique_columns s).findSome? (fun c2 =>
                  (st.rows.find? (fun r2 =>
                    nonNullEq (dlookup e.data c2.name)
                      (dlookup r2.data c2.name))).map
                    (fun r2 => (ConflictTarget.col c2.name, r2))) with
              | some x =>
                rw [hus] at hconf
                rcases List.exists_of_findSome?_eq_some hus with ⟨c2, hc2, hx⟩
                cases hfd2 : st.rows.find? (fun r2 =>
                    nonNullEq (dlookup e.data c2.name)
                      (dlookup r2.data c2.name)) with
                | none => rw [hfd2] at hx; cases hx
                | some r2 =>
                  rw [hfd2] at hx
                  dsimp only [Option.map] at hx
                  have hx2 := Option.some.inj hx
                  rw [← hx2] at hconf
                  have hname := congrArg Prod.fst (Option.some.inj hconf)
                  simp only at hname
                  have : c2.name = "id" := (ConflictTarget.col.inj hname)
                  rcases List.mem_filter.mp hc2 with ⟨_, hpred⟩
                  rw [Bool.and_eq_true] at hpred
                  have hnotex := hpred.2
                  rw [this] at hnotex
                  simp [excluded_column_names] at hnotex
              | none =>
                rw [hus] at hconf
                cases hcs : s.constraints.findSome? (fun ct =>
                    (st.rows.find? (fun r2 =>
                      constraintHit ct e.data r2.data)).map
                      (fun r2 => (ConflictTarget.constr ct.name, r2))) with
                | none => rw [hcs] at hconf; cases hconf
                | some x =>
                  rw [hcs] at hconf
                  rcases List.exists_of_findSome?_eq_some hcs with ⟨ct, hct, hx⟩
                  cases hfd2 : st.rows.find? (fun r2 =>
                      constraintHit ct e.data r2.data) with
                  | none => rw [hfd2] at hx; cases hx
                  | some r2 =>
                    rw [hfd2] at hx
                    dsimp only [Option.map] at hx
                    have hx2 := Option.some.inj hx
                    rw [← hx2] at hconf
                    have hname := congrArg Prod.fst (Option.some.inj hconf)
                    simp only at hname
                    cases hname
          rw [hr]
      · rw [if_neg htg] at h
        cases h

theorem execInsertRows_doUpdate_length (s : EntitySchema)
    (c : ConflictClause) (ha : c.action = OnConflictAction.doUpdate) :
    ∀ (es : List Entity) (st st2 : StoreState) (ids : List Int),
      execInsertRows s (some c) st es = Except.ok (st2, ids) →
      ids.length = es.length := by
  intro es
  induction es with
  | nil =>
    intro st st2 ids hrun
    unfold execInsertRows at hrun
    have h2 := congrArg Prod.snd (Except.ok.inj hrun)
    simp only at h2
    rw [← h2]
    rfl
  | cons e rest ih =>
    intro st st2 ids hrun
    unfold execInsertRows at hrun
    cases hq : execInsertOne s (some c) st e with
    | error err =>
      rw [hq] at hrun
      cases hrun
    | ok p =>
      cases p with
      | mk st1 oid =>
        rw [hq] at hrun
        dsimp only at hrun
        cases hr : execInsertRows s (some c) st1 rest with
        | error err =>
          rw [hr] at hrun
          cases hrun
        | ok p2 =>
          cases p2 with
          | mk st3 ids2 =>
            rw [hr] at hrun
            dsimp only at hrun
            have h2 := congrArg Prod.snd (Except.ok.inj hrun)
            simp only at h2
            have hsome := execInsertOne_doUpdate_isSome s c st st1 e oid ha hq
            cases oid with
            | none => cases hsome
            | some j =>
              rw [← h2]
              simp only [Option.toList, List.singleton_append,
                List.length_cons, List.length_cons]
              rw [ih st1 st3 ids2 hr]

theorem execInsertRows_target_id_ids (s : EntitySchema)
    (c : ConflictClause) (ha : c.action = OnConflictAction.doUpdate)
    (ht : c.target = some (ConflictTarget.col "id")) :
    ∀ (es : List Entity) (st st2 : StoreState) (ids : List Int),
      (∀ e ∈ es, (e.idVal).isSome = true) →
      execInsertRows s (some c) st es = Except.ok (st2, ids) →
      ids = es.filterMap Entity.idVal := by
  intro es
  induction es with
  | nil =>
    intro st st2 ids hsome hrun
    unfold execInsertRows at hrun
    have h2 := congrArg Prod.snd (Except.ok.inj hrun)
    simp only at h2
    rw [← h2]
    rfl
  | cons e rest ih =>
    intro st st2 ids hsome hrun
    unfold execInsertRows at hrun
    cases hq : execInsertOne s (some c) st e with
    | error err =>
      rw [hq] at hrun
      cases hrun
    | ok p =>
      cases p with
      | mk st1 oid =>
        rw [hq] at hrun
        dsimp only at hrun
        cases hr : execInsertRows s (some c) st1 rest with
        | error err =>
          rw [hr] at hrun
          cases hrun
        | ok p2 =>
          cases p2 with
          | mk st3 ids2 =>
            rw [hr] at hrun
            dsimp only at hrun
            have h2 := congrArg Prod.snd (Except.ok.inj hrun)
            simp only at h2
            have he := hsome e (List.mem_cons_self _ _)
            cases hidv : e.idVal with
            | none => rw [hidv] at he; cases he
            | some i =>
              have hoid : oid = some i :=
                execInsertOne_target_id s c st st1 e oid i ha ht hidv hq
              subst hoid
              rw [← h2, List.filterMap_cons, hidv]
              simp only [Option.toList, List.singleton_append]
              congr 1
              exact ih st1 st3 ids2
                (fun e2 he2 => hsome e2 (List.mem_cons_of_mem _ he2)) hr

/-- Sequentially executed statements whose clauses all DO UPDATE on
target `(id)` return exactly the explicit ids of their rows, in
statement and row order. -/
theorem runStmts_target_id_ids (s : EntitySchema)
    (wrap : String → AppError) :
    ∀ (qs : List InsertStmt) (st st2 : StoreState) (ids : List Int),
      (∀ q ∈ qs, ∃ vals, q.onConflict =
        some ⟨some (ConflictTarget.col "id"), OnConflictAction.doUpdate,
          vals⟩) →
      (∀ q ∈ qs, ∀ e ∈ q.rows, (e.idVal).isSome = true) →
      runStmts s st qs wrap = (st2, Except.ok ids) →
      ids = qs.flatMap (fun q => q.rows.filterMap Entity.idVal) := by
  intro qs
  induction qs with
  | nil =>
    intro st st2 ids hcl hsome hrun
    simp only [runStmts] at hrun
    have h2 := congrArg Prod.snd hrun
    simp only at h2
    cases h2
    rfl
  | cons q rest ih =>
    intro st st2 ids hcl hsome hrun
    simp only [runStmts] at hrun
    cases hq : execInsertStmt s st q with
    | error err =>
      rw [hq] at hrun
      cases err with
      | uniqueViolation m2 =>
        dsimp only at hrun
        have := congrArg Prod.snd hrun
        simp at this
    | ok p =>
      cases p with
      | mk st1 ids1 =>
        rw [hq] at hrun
        dsimp only at hrun
        cases hrest : runStmts s st1 rest wrap with
        | mk st3 res =>
          rw [hrest] at hrun
          cases res with
          | error e2 =>
            have := congrArg Prod.snd hrun
            simp at this
          | ok ids2 =>
            have h2 := congrArg Prod.snd hrun
            simp only at h2
            have h2b : ids1 ++ ids2 = ids := by
              cases h2
              rfl
            rcases hcl q (List.mem_cons_self _ _) with ⟨vals, hclq⟩
            have hq2 : execInsertRows s
                (some ⟨some (ConflictTarget.col "id"),
                  OnConflictAction.doUpdate, vals⟩) st q.rows =
                Except.ok (st1, ids1) := by
              unfold execInsertStmt at hq
              rw [hclq] at hq
              exact hq
            have hi1 := execInsertRows_target_id_ids s
              ⟨some (ConflictTarget.col "id"), OnConflictAction.doUpdate,
                vals⟩ rfl rfl q.rows st st1 ids1
              (hsome q (List.mem_cons_self _ _)) hq2
            have hi2 := ih st1 st3 ids2
              (fun q2 hq2m => hcl q2 (List.mem_cons_of_mem _ hq2m))
              (fun q2 hq2m => hsome q2 (List.mem_cons_of_mem _ hq2m))
              hrest
            rw [← h2b, hi1, hi2, List.flatMap_cons]

/-- Sequentially executed statements whose shared clause is DO UPDATE
return one id per row: the result length is the total row count. -/
theorem runStmts_doUpdate_length (s : EntitySchema)
    (wrap : String → AppError) (c : ConflictClause)
    (ha : c.action = OnConflictAction.doUpdate) :
    ∀ (qs : List InsertStmt) (st st2 : StoreState) (ids : List Int),
      (∀ q ∈ qs, q.onConflict = some c) →
      runStmts s st qs wrap = (st2, Except.ok ids) →
      ids.length = (qs.map (fun q => q.rows.length)).sum := by
  intro qs
  induction qs with
  | nil =>
    intro st st2 ids hcl hrun
    simp only [runStmts] at hrun
    have h2 := congrArg Prod.snd hrun
    simp only at h2
    cases h2
    rfl
  | cons q rest ih =>
    intro st st2 ids hcl hrun
    simp only [runStmts] at hrun
    cases hq : execInsertStmt s st q with
    | error err =>
      rw [hq] at hrun
      cases err with
      | uniqueViolation m2 =>
        dsimp only at hrun
        have := congrArg Prod.snd hrun
        simp at this
    | ok p =>
      cases p with
      | mk st1 ids1 =>
        rw [hq] at hrun
        dsimp only at hrun
        cases hrest : runStmts s st1 rest wrap with
        | mk st3 res =>
          rw [hrest] at hrun
          cases res with
          | error e2 =>
            have := congrArg Prod.snd hrun
            simp at this
          | ok ids2 =>
            have h2 := congrArg Prod.snd hrun
            simp only at h2
            have h2b : ids1 ++ ids2 = ids := by
              cases h2
              rfl
            have hq2 : execInsertRows s (some c) st q.rows =
                Except.ok (st1, ids1) := by
              unfold execInsertStmt at hq
              rw [hcl q (List.mem_cons_self _ _)] at hq
              exact hq
            have hl1 := execInsertRows_doUpdate_length s c ha q.rows
              st st1 ids1 hq2
            have hl2 := ih st1 st3 ids2
              (fun q2 hq2m => hcl q2 (List.mem_cons_of_mem _ hq2m)) hrest
            rw [← h2b, List.length_append, hl1, hl2, List.map_cons,
              List.sum_cons]

/-- Concatenating `filterMap` over the batches is `filterMap` over the
input. -/
theorem flatMap_filterMap_chunks_aux (bs : Nat) (f : α → Option β) :
    ∀ (n : Nat) (l : List α), l.length ≤ n →
      (chunksOf bs l).flatMap (fun b => b.filterMap f) = l.filterMap f := by
  intro n
  induction n with
  | zero =>
    intro l h
    cases l with
    | nil => rfl
    | cons x xs => simp at h
  | succ n ih =>
    intro l h
    cases l with
    | nil => rfl
    | cons x xs =>
      rw [chunksOf_cons, List.flatMap_cons, ih _ ?_,
        ← List.filterMap_append, List.cons_append, List.take_append_drop]
      rw [List.length_drop]
      simp only [List.length_cons] at h
      omega

theorem flatMap_filterMap_chunks (bs : Nat) (f : α → Option β)
    (l : List α) :
    (chunksOf bs l).flatMap (fun b => b.filterMap f) = l.filterMap f :=
  flatMap_filterMap_chunks_aux bs f l.length l le_rfl

/-- When every DTO has the same sorted key tuple, the `defaultdict`
fold keeps everything in the one group, in input order. -/
theorem group_fold_uniform (kt : List String) :
    ∀ (dtos : List UpdateWithIdDto) (ds0 : List Dict),
      (∀ d ∈ dtos, key_tuple (dict_without_unset d) = kt) →
      dtos.foldl (fun acc dto =>
        groupInsert (key_tuple (dict_without_unset dto))
          (dict_without_unset dto) acc) [(kt, ds0)] =
        [(kt, ds0 ++ dtos.map dict_without_unset)] := by
  intro dtos
  induction dtos with
  | nil =>
    intro ds0 h
    simp
  | cons dto rest ih =>
    intro ds0 h
    rw [List.foldl_cons]
    have hk : key_tuple (dict_without_unset dto) = kt :=
      h dto (List.mem_cons_self _ _)
    rw [hk]
    have hstep : groupInsert kt (dict_without_unset dto) [(kt, ds0)] =
        [(kt, ds0 ++ [dict_without_unset dto])] := by
      unfold groupInsert
      rw [if_pos rfl]
    rw [hstep, ih (ds0 ++ [dict_without_unset dto])
      (fun d hd => h d (List.mem_cons_of_mem _ hd))]
    rw [List.append_assoc]
    rfl

/-- `group_dicts_by_keys` of a uniformly-keyed non-empty input is the
single group of all dicts in submission order. -/
theorem group_dicts_by_keys_uniform (kt : List String)
    (d0 : UpdateWithIdDto) (rest : List UpdateWithIdDto)
    (h : ∀ d ∈ d0 :: rest, key_tuple (dict_without_unset d) = kt) :
    group_dicts_by_keys (d0 :: rest) =
      [(d0 :: rest).map dict_without_unset] := by
  unfold group_dicts_by_keys
  dsimp only
  rw [List.foldl_cons]
  have hk : key_tuple (dict_without_unset d0) = kt :=
    h d0 (List.mem_cons_self _ _)
  rw [hk]
  have hstep : groupInsert kt (dict_without_unset d0) [] =
      [(kt, [dict_without_unset d0])] := rfl
  rw [hstep, group_fold_uniform kt rest [dict_without_unset d0]
    (fun d hd => h d (List.mem_cons_of_mem _ hd))]
  simp

theorem filterMap_congr_mem (l : List α) (f g : α → Option β)
    (h : ∀ a ∈ l, f a = g a) : l.filterMap f = l.filterMap g := by
  induction l with
  | nil => rfl
  | cons a as ih =>
    rw [List.filterMap_cons, List.filterMap_cons, h a (List.mem_cons_self _ _),
      ih (fun a2 ha2 => h a2 (List.mem_cons_of_mem _ ha2))]

theorem filterMap_some_eq_map (f : α → β) (l : List α) :
    l.filterMap (fun a => some (f a)) = l.map f := by
  induction l with
  | nil => rfl
  | cons a as ih => simp [List.filterMap_cons, ih]

theorem mem_of_mem_chunksOf (bs : Nat) (l : List α) (b : List α) (x : α)
    (hb : b ∈ chunksOf bs l) (hx : x ∈ b) : x ∈ l := by
  have hfl := chunksOf_flatten bs l
  rw [← hfl]
  exact List.mem_flatten.mpr ⟨b, hb, hx⟩

/-- The batching-free sequential specification of a bulk write: process
the rows strictly one at a time with the same per-row semantics and
record one outcome per row, in submission order — `some id` for a row
that was written (inserted or updated), `none` for a row a DO NOTHING
clause skipped. -/
def runRowsSeq (s : EntitySchema) (clause : Option ConflictClause) :
    StoreState → List Entity →
      Except DbError (StoreState × List (Option Int))
  | st, [] => Except.ok (st, [])
  | st, e :: rest =>
    match execInsertOne s clause st e with
    | Except.error err => Except.error err
    | Except.ok (st1, oid) =>
      match runRowsSeq s clause st1 rest with
      | Except.error err => Except.error err
      | Except.ok (st2, os) => Except.ok (st2, oid :: os)

/-- One multi-row statement returns exactly the sequential outcomes of
its rows with the skipped ones dropped. -/
theorem execInsertRows_seq (s : EntitySchema) (c : Option ConflictClause) :
    ∀ (es : List Entity) (st st2 : StoreState) (ids : List Int),
      execInsertRows s c st es = Except.ok (st2, ids) →
      ∃ oids : List (Option Int),
        runRowsSeq s c st es = Except.ok (st2, oids) ∧
        oids.length = es.length ∧
        ids = oids.filterMap (fun o => o) := by
  intro es
  induction es with
  | nil =>
    intro st st2 ids hrun
    refine ⟨[], ?_, rfl, ?_⟩
    · unfold execInsertRows at hrun
      have h1 := congrArg Prod.fst (Except.ok.inj hrun)
      simp only at h1
      unfold runRowsSeq
      rw [h1]
    · have h2 := congrArg Prod.snd (Except.ok.inj hrun)
      simp only at h2
      rw [← h2]
      rfl
  | cons e rest ih =>
    intro st st2 ids hrun
    unfold execInsertRows at hrun
    cases hq : execInsertOne s c st e with
    | error err =>
      rw [hq] at hrun
      cases hrun
    | ok p =>
      cases p with
      | mk st1 oid =>
        rw [hq] at hrun
        dsimp only at hrun
        cases hr : execInsertRows s c st1 rest with
        | error err =>
          rw [hr] at hrun
          cases hrun
        | ok p2 =>
          cases p2 with
          | mk st3 ids2 =>
            rw [hr] at hrun
            dsimp only at hrun
            have h1 := congrArg Prod.fst (Except.ok.inj hrun)
            have h2 := congrArg Prod.snd (Except.ok.inj hrun)
            simp only at h1 h2
            obtain ⟨oids2, hseq2, hlen2, hids2⟩ := ih st1 st3 ids2 hr
            refine ⟨oid :: oids2, ?_, ?_, ?_⟩
            · unfold runRowsSeq
              rw [hq]
              dsimp only
              rw [hseq2, h1]
            · simp [hlen2]
            · rw [← h2, hids2]
              cases oid with
              | none => rfl
              | some j => rfl

/-- Sequential processing composes over list concatenation. -/
theorem runRowsSeq_append (s : EntitySchema) (c : Option ConflictClause) :
    ∀ (es1 es2 : List Entity) (st st1 st2 : StoreState)
      (o1 o2 : List (Option Int)),
      runRowsSeq s c st es1 = Except.ok (st1, o1) →
      runRowsSeq s c st1 es2 = Except.ok (st2, o2) →
      runRowsSeq s c st (es1 ++ es2) = Except.ok (st2, o1 ++ o2) := by
  intro es1
  induction es1 with
  | nil =>
    intro es2 st st1 st2 o1 o2 h1 h2
    unfold runRowsSeq at h1
    have ha := congrArg Prod.fst (Except.ok.inj h1)
    have hb := congrArg Prod.snd (Except.ok.inj h1)
    simp only at ha hb
    subst ha
    rw [← hb]
    simpa using h2
  | cons e rest ih =>
    intro es2 st st1 st2 o1 o2 h1 h2
    unfold runRowsSeq at h1
    cases hq : execInsertOne s c st e with
    | error err =>
      rw [hq] at h1
      cases h1
    | ok p =>
      cases p with
      | mk stm oid =>
        rw [hq] at h1
        dsimp only at h1
        cases hr : runRowsSeq s c stm rest with
        | error err =>
          rw [hr] at h1
          cases h1
        | ok p2 =>
          cases p2 with
          | mk st3 os =>
            rw [hr] at h1
            dsimp only at h1
            have ha := congrArg Prod.fst (Except.ok.inj h1)
            have hb := congrArg Prod.snd (Except.ok.inj h1)
            simp only at ha hb
            subst ha
            rw [List.cons_append]
            unfold runRowsSeq
            rw [hq]
            dsimp only
            rw [ih es2 stm st3 st2 os o2 hr h2]
            rw [← hb]
            rfl

/-- A batched run over statements that share one clause equals the
batching-free sequential run over the concatenated rows: same final
state, one outcome per row in submission order, and the returned ids
are the outcomes with the skipped rows dropped.  The batch structure is
invisible in the result. -/
theorem runStmts_seq_batches (s : EntitySchema) (wrap : String → AppError)
    (c : ConflictClause) :
    ∀ (bs : List (List Entity)) (st st2 : StoreState) (ids : List Int),
      runStmts s st (bs.map (fun b => ⟨b, some c⟩)) wrap =
        (st2, Except.ok ids) →
      ∃ oids : List (Option Int),
        runRowsSeq s (some c) st bs.flatten = Except.ok (st2, oids) ∧
        oids.length = bs.flatten.length ∧
        ids = oids.filterMap (fun o => o) := by
  intro bs
  induction bs with
  | nil =>
    intro st st2 ids hrun
    simp only [List.map_nil, runStmts] at hrun
    have h1 := congrArg Prod.fst hrun
    have h2 := congrArg Prod.snd hrun
    simp only at h1 h2
    have h2b : ids = [] := by
      cases h2
      rfl
    subst h2b
    refine ⟨[], ?_, rfl, rfl⟩
    rw [List.flatten_nil]
    unfold runRowsSeq
    rw [h1]
  | cons b rest ih =>
    intro st st2 ids hrun
    simp only [List.map_cons, runStmts, execInsertStmt] at hrun
    cases hq : execInsertRows s (some c) st b with
    | error err =>
      rw [hq] at hrun
      cases err with
      | uniqueViolation m2 =>
        dsimp only at hrun
        have := congrArg Prod.snd hrun
        simp at this
    | ok p =>
      cases p with
      | mk st1 ids1 =>
        rw [hq] at hrun
        dsimp only at hrun
        cases hrest : runStmts s st1
            (rest.map (fun b => ⟨b, some c⟩)) wrap with
        | mk st3 res =>
          rw [hrest] at hrun
          cases res with
          | error e2 =>
            have := congrArg Prod.snd hrun
            simp at this
          | ok ids2 =>
            have h1 := congrArg Prod.fst hrun
            have h2 := congrArg Prod.snd hrun
            simp only at h1 h2
            have h2b : ids1 ++ ids2 = ids := by
              cases h2
              rfl
            obtain ⟨o1, hs1, hl1, hi1⟩ := execInsertRows_seq s (some c)
              b st st1 ids1 hq
            obtain ⟨o2, hs2, hl2, hi2⟩ := ih st1 st3 ids2 hrest
            refine ⟨o1 ++ o2, ?_, ?_, ?_⟩
            · rw [List.flatten_cons, ← h1]
              exact runRowsSeq_append s (some c) b rest.flatten st st1
                st3 o1 o2 hs1 hs2
            · rw [List.flatten_cons, List.length_append,
                List.length_append, hl1, hl2]
            · rw [← h2b, hi1, hi2, List.filterMap_append]

theorem flatten_map_map (f : α → β) (l : List (List α)) :
    (l.map (List.map f)).flatten = l.flatten.map f := by
  induction l with
  | nil => rfl
  | cons g gs ih =>
    simp only [List.map_cons, List.flatten_cons, List.map_append, ih]

theorem flatMap_filterMap_eq_filterMap_flatten (f : α → Option β)
    (l : List (List α)) :
    l.flatMap (fun g => g.filterMap f) = l.flatten.filterMap f := by
  induction l with
  | nil => rfl
  | cons g gs ih =>
    simp only [List.flatMap_cons, List.flatten_cons,
      List.filterMap_append, ih]

theorem filterMap_length_of_all_isSome (f : α → Option β) :
    ∀ (l : List α), (∀ x ∈ l, (f x).isSome = true) →
      (l.filterMap f).length = l.length := by
  intro l
  induction l with
  | nil => intro _; rfl
  | cons x xs ih =>
    intro h
    have hx := h x (List.mem_cons_self _ _)
    cases hfx : f x with
    | none => rw [hfx] at hx; cases hx
    | some b =>
      rw [List.filterMap_cons, hfx]
      simp only [List.length_cons]
      rw [ih (fun y hy => h y (List.mem_cons_of_mem _ hy))]

/-- Every dict inside the groups of `group_dicts_by_keys` is the
`dict_without_unset` image of one of the input DTOs. -/
theorem groupInsert_mem_pred (Q : Dict → Prop) (k : List String) (d : Dict)
    (hd : Q d) :
    ∀ (acc : List (List String × List Dict)),
      (∀ p ∈ acc, ∀ d2 ∈ p.2, Q d2) →
      ∀ p ∈ groupInsert k d acc, ∀ d2 ∈ p.2, Q d2 := by
  intro acc
  induction acc with
  | nil =>
    intro _ p hp d2 hd2
    simp only [groupInsert, List.mem_singleton] at hp
    subst hp
    rw [List.mem_singleton] at hd2
    subst hd2
    exact hd
  | cons q rest ih =>
    cases q with
    | mk k2 ds =>
      intro h p hp d2 hd2
      unfold groupInsert at hp
      by_cases hk : k = k2
      · rw [if_pos hk] at hp
        rcases List.mem_cons.mp hp with h1 | h1
        · subst h1
          rcases List.mem_append.mp hd2 with h3 | h3
          · exact h ⟨k2, ds⟩ (List.mem_cons_self _ _) d2 h3
          · rw [List.mem_singleton] at h3
            subst h3
            exact hd
        · exact h p (List.mem_cons_of_mem _ h1) d2 hd2
      · rw [if_neg hk] at hp
        rcases List.mem_cons.mp hp with h1 | h1
        · subst h1
          exact h ⟨k2, ds⟩ (List.mem_cons_self _ _) d2 hd2
        · exact ih (fun q2 hq2 => h q2 (List.mem_cons_of_mem _ hq2))
            p h1 d2 hd2

theorem group_fold_mem_pred (Q : Dict → Prop) :
    ∀ (dtos : List UpdateWithIdDto)
      (acc : List (List String × List Dict)),
      (∀ p ∈ acc, ∀ d2 ∈ p.2, Q d2) →
      (∀ dto ∈ dtos, Q (dict_without_unset dto)) →
      ∀ p ∈ dtos.foldl (fun acc dto =>
        groupInsert (key_tuple (dict_without_unset dto))
          (dict_without_unset dto) acc) acc, ∀ d2 ∈ p.2, Q d2 := by
  intro dtos
  induction dtos with
  | nil => intro acc h _; exact h
  | cons dto rest ih =>
    intro acc h hq
    rw [List.foldl_cons]
    exact ih _
      (groupInsert_mem_pred Q _ _ (hq dto (List.mem_cons_self _ _)) acc h)
      (fun d2 hd2 => hq d2 (List.mem_cons_of_mem _ hd2))

theorem group_dicts_by_keys_mem (dtos : List UpdateWithIdDto)
    (g : List Dict) (d : Dict) (hg : g ∈ group_dicts_by_keys dtos)
    (hd : d ∈ g) : ∃ dto ∈ dtos, d = dict_without_unset dto := by
  unfold group_dicts_by_keys at hg
  rcases List.mem_map.mp hg with ⟨p, hp, hpg⟩
  subst hpg
  exact group_fold_mem_pred
    (fun d2 => ∃ dto ∈ dtos, d2 = dict_without_unset dto) dtos []
    (by simp) (fun dto hdto => ⟨dto, hdto, rfl⟩) p hp d hd

/-- `group_dicts_by_keys` only rearranges: the total number of grouped
dicts is the number of input DTOs. -/
theorem groupInsert_total (k : List String) (d : Dict) :
    ∀ acc : List (List String × List Dict),
      ((groupInsert k d acc).map (fun p => p.2.length)).sum =
        ((acc.map (fun p => p.2.length)).sum) + 1 := by
  intro acc
  induction acc with
  | nil => simp [groupInsert]
  | cons q rest ih =>
    cases q with
    | mk k2 ds =>
      unfold groupInsert
      by_cases hk : k = k2
      · rw [if_pos hk]
        simp only [List.map_cons, List.sum_cons, List.length_append,
          List.length_singleton]
        omega
      · rw [if_neg hk]
        simp only [List.map_cons, List.sum_cons, ih]
        omega

theorem group_fold_total :
    ∀ (dtos : List UpdateWithIdDto)
      (acc : List (List String × List Dict)),
      ((dtos.foldl (fun acc dto =>
        groupInsert (key_tuple (dict_without_unset dto))
          (dict_without_unset dto) acc) acc).map
            (fun p => p.2.length)).sum =
        ((acc.map (fun p => p.2.length)).sum) + dtos.length := by
  intro dtos
  induction dtos with
  | nil => intro acc; simp
  | cons dto rest ih =>
    intro acc
    rw [List.foldl_cons, ih, groupInsert_total]
    simp only [List.length_cons]
    omega

theorem group_dicts_by_keys_flatten_length (dtos : List UpdateWithIdDto) :
    (group_dicts_by_keys dtos).flatten.length = dtos.length := by
  rw [List.length_flatten]
  unfold group_dicts_by_keys
  rw [List.map_map]
  have h := group_fold_total dtos []
  simp only [List.map_nil, List.sum_nil, Nat.zero_add] at h
  rw [← h]
  rfl

/-- Claim C7 (corrected): identifier order.
(1) `create_many`, when it succeeds, returns one identifier per written
row in the submission order of the input DTOs, concatenated across
batches, for any batch size configuration: the consecutive serial ids.
(2) `upsert_many`, when it succeeds, equals the batching-free
sequential per-DTO execution: one outcome per input DTO in submission
order, the result being the outcomes with the (DO NOTHING) skipped,
unwritten rows dropped — one identifier per written row in submission
order; under a DO UPDATE clause every row is written, one identifier
per input DTO.
(3) `update_many_with_id` returns one identifier per input DTO, but in
the *grouped* order: the ids of `group_dicts_by_keys`'s flattened
groups (first-appearance order of present-key sets, submission order
within each group).  This equals submission order whenever all DTOs
share one present-key set, but not in general (see the
counterexample). -/
theorem C7_amended_order :
    (∀ (s : EntitySchema) (now : Value) (st st2 : StoreState)
        (dtos : List Dict) (ids : List Int),
      (∀ d ∈ dtos, entityId d = none) →
      create_many s now st dtos = (st2, Except.ok ids) →
      ids = seqIds st.nextId dtos.length) ∧
    (∀ (s : EntitySchema) (now : Value) (st st2 : StoreState)
        (dtos : List Dict) (ids : List Int),
      upsert_many s now st dtos = (st2, Except.ok ids) →
      ∃ oids : List (Option Int),
        runRowsSeq s (some (add_on_conflict_params s).1) st
          (dtos.map (mkEntity s now)) = Except.ok (st2, oids) ∧
        oids.length = dtos.length ∧
        ids = oids.filterMap (fun o => o) ∧
        ((add_on_conflict_params s).1.action = OnConflictAction.doUpdate →
          ids.length = dtos.length)) ∧
    (∀ (s : EntitySchema) (now : Value) (st st2 : StoreState)
        (dtos : List UpdateWithIdDto) (ids : List Int),
      update_many_with_id s now st dtos = (st2, Except.ok ids) →
      ids = ((group_dicts_by_keys dtos).flatten).filterMap entityId ∧
      ids.length = dtos.length ∧
      ∀ kt : List String,
        (∀ d ∈ dtos, key_tuple (dict_without_unset d) = kt) →
        ids = dtos.map UpdateWithIdDto.id) := by
  refine ⟨?_, ?_, ?_⟩
  · intro s now st st2 dtos ids hids hrun
    unfold create_many create_many_stmts at hrun
    have hsum : ((batch_generator s dtos).map List.length).sum =
        dtos.length := by
      rw [← List.length_flatten]
      unfold batch_generator
      rw [chunksOf_flatten]
    have hrec := runStmts_create_ids s now AppError.conflict
      (batch_generator s dtos) st st2 ids
      (fun b hb d hd => hids d
        (mem_of_mem_chunksOf (used_batch_size s) dtos b d hb hd))
      hrun
    rw [hrec.1, hsum]
  · intro s now st st2 dtos ids hrun
    unfold upsert_many upsert_many_stmts at hrun
    have hshape : (batch_generator s dtos).map (fun b =>
        (⟨b.map (mkEntity s now),
          some (add_on_conflict_params s).1⟩ : InsertStmt)) =
        ((batch_generator s dtos).map (List.map (mkEntity s now))).map
          (fun b => ⟨b, some (add_on_conflict_params s).1⟩) := by
      rw [List.map_map]
      rfl
    rw [hshape] at hrun
    obtain ⟨oids, hseq, hlen, hids⟩ := runStmts_seq_batches s
      AppError.conflict (add_on_conflict_params s).1
      ((batch_generator s dtos).map (List.map (mkEntity s now)))
      st st2 ids hrun
    have hflat : ((batch_generator s dtos).map
        (List.map (mkEntity s now))).flatten = dtos.map (mkEntity s now) := by
      rw [flatten_map_map]
      unfold batch_generator
      rw [chunksOf_flatten]
    rw [hflat] at hseq hlen
    rw [List.length_map] at hlen
    refine ⟨oids, hseq, hlen, hids, ?_⟩
    intro ha
    have hlen2 := runStmts_doUpdate_length s AppError.conflict
      (add_on_conflict_params s).1 ha
      (((batch_generator s dtos).map (List.map (mkEntity s now))).map
        (fun b => ⟨b, some (add_on_conflict_params s).1⟩))
      st st2 ids
      (by
        intro q hq
        rcases List.mem_map.mp hq with ⟨b, hb, hbq⟩
        subst hbq
        rfl)
      hrun
    rw [hlen2, List.map_map]
    have hmap : (((batch_generator s dtos).map
        (List.map (mkEntity s now))).map
          ((fun q : InsertStmt => q.rows.length) ∘
            (fun b => (⟨b, some (add_on_conflict_params s).1⟩ :
              InsertStmt)))) =
        ((batch_generator s dtos).map (List.map (mkEntity s now))).map
          List.length := by
      apply List.map_congr_left
      intro b _
      rfl
    rw [hmap, ← List.length_flatten, hflat, List.length_map]
  · intro s now st st2 dtos ids hrun
    unfold update_many_with_id update_many_with_id_stmts at hrun
    have hsome : ∀ q ∈ (group_dicts_by_keys dtos).flatMap (fun g =>
        (batch_generator s g).map (updateStmtFor s now)),
        ∀ e ∈ q.rows, (e.idVal).isSome = true := by
      intro q hq e he
      rcases List.mem_flatMap.mp hq with ⟨g, hg, hqg⟩
      rcases List.mem_map.mp hqg with ⟨b, hb, hbq⟩
      subst hbq
      rcases List.mem_map.mp he with ⟨d, hd, hde⟩
      subst hde
      have hdg : d ∈ g := mem_of_mem_chunksOf _ _ b d hb hd
      rcases group_dicts_by_keys_mem dtos g d hg hdg with ⟨dto, _, hddto⟩
      subst hddto
      rw [mkEntity_idVal]
      rfl
    have hids := runStmts_target_id_ids s AppError.uniqueRaw
      ((group_dicts_by_keys dtos).flatMap (fun g =>
        (batch_generator s g).map (updateStmtFor s now))) st st2 ids
      (by
        intro q hq
        rcases List.mem_flatMap.mp hq with ⟨g, hg, hqg⟩
        rcases List.mem_map.mp hqg with ⟨b, hb, hbq⟩
        subst hbq
        exact ⟨cols_to_update b ++ ["updated_at"], rfl⟩)
      hsome hrun
    have hrows : ∀ b : List Dict,
        (updateStmtFor s now b).rows.filterMap Entity.idVal =
          b.filterMap (fun d => (mkEntity s now d).idVal) := by
      intro b
      show (b.map (mkEntity s now)).filterMap Entity.idVal = _
      rw [List.filterMap_map]
      rfl
    rw [flatMap_flatMap_general] at hids
    have hinner : ∀ g : List Dict,
        ((batch_generator s g).map (updateStmtFor s now)).flatMap
          (fun q => q.rows.filterMap Entity.idVal) =
          g.filterMap (fun d => (mkEntity s now d).idVal) := by
      intro g
      rw [map_flatMap_general]
      simp only [hrows]
      unfold batch_generator
      exact flatMap_filterMap_chunks _ _ g
    simp only [hinner] at hids
    rw [flatMap_filterMap_eq_filterMap_flatten] at hids
    have hfn : (fun d => (mkEntity s now d).idVal) = entityId := by
      funext d
      rfl
    rw [hfn] at hids
    have hall : ∀ d ∈ (group_dicts_by_keys dtos).flatten,
        (entityId d).isSome = true := by
      intro d hd
      rcases List.mem_flatten.mp hd with ⟨g, hg, hdg⟩
      rcases group_dicts_by_keys_mem dtos g d hg hdg with ⟨dto, _, hddto⟩
      subst hddto
      rw [show entityId (dict_without_unset dto) = some dto.id from rfl]
      rfl
    refine ⟨hids, ?_, ?_⟩
    · rw [hids, filterMap_length_of_all_isSome entityId _ hall,
        group_dicts_by_keys_flatten_length]
    · intro kt hkt
      cases dtos with
      | nil =>
        rw [hids]
        rfl
      | cons d0 rest =>
        rw [hids, group_dicts_by_keys_uniform kt d0 rest hkt]
        rw [List.flatten_cons, List.flatten_nil, List.append_nil]
        rw [List.filterMap_map]
        have hcg := filterMap_congr_mem (d0 :: rest)
          (entityId ∘ dict_without_unset)
          (fun dto => some (UpdateWithIdDto.id dto)) (fun dto _ => rfl)
        rw [hcg]
        exact filterMap_some_eq_map UpdateWithIdDto.id (d0 :: rest)

/-- Witness for `C7_amended_order`: create with batch size forced to 1
returns `[4, 5, 6]` (serials in submission order); upsert over one
existing and one new title equals the sequential per-DTO run with one
outcome per DTO and result `[1, 4]`; the heterogeneous update input of
the counterexample returns exactly the grouped ids (one per DTO), and a
uniform-key-set update returns `[1, 3]`, the submitted ids in order. -/
theorem C7_witness :
    ([(4 : Int), 5, 6] = seqIds noteStore.nextId
        ([noteCreate "t4" "b" 1, noteCreate "t5" "b" 2,
          noteCreate "t6" "b" 3] : List Dict).length) ∧
      (∃ oids : List (Option Int),
        runRowsSeq noteSchema (some (add_on_conflict_params noteSchema).1)
          noteStore
          (([noteCreate "t1" "bb" 9, noteCreate "t9" "b" 2] :
            List Dict).map (mkEntity noteSchema (Value.int 100))) =
          Except.ok ((upsert_many noteSchema (Value.int 100) noteStore
            [noteCreate "t1" "bb" 9, noteCreate "t9" "b" 2]).1, oids) ∧
        oids.length = ([noteCreate "t1" "bb" 9, noteCreate "t9" "b" 2] :
          List Dict).length ∧
        [(1 : Int), 4] = oids.filterMap (fun o => o) ∧
        ((add_on_conflict_params noteSchema).1.action =
            OnConflictAction.doUpdate →
          ([(1 : Int), 4] : List Int).length =
            ([noteCreate "t1" "bb" 9, noteCreate "t9" "b" 2] :
              List Dict).length)) ∧
      ([(1 : Int), 3, 2] = ((group_dicts_by_keys
          [noteUpd 1 (some "x") none none, noteUpd 2 none (some "y") none,
            noteUpd 3 (some "z") none none]).flatten).filterMap entityId) ∧
      ([(1 : Int), 3] =
        [noteUpd 1 (some "x") none none,
          noteUpd 3 (some "z") none none].map UpdateWithIdDto.id) :=
  ⟨C7_amended_order.1 noteSchemaB1 (Value.int 100) noteStore
      (create_many noteSchemaB1 (Value.int 100) noteStore
        [noteCreate "t4" "b" 1, noteCreate "t5" "b" 2,
          noteCreate "t6" "b" 3]).1
      [noteCreate "t4" "b" 1, noteCreate "t5" "b" 2, noteCreate "t6" "b" 3]
      [4, 5, 6] (by decide) (by decide),
    C7_amended_order.2.1 noteSchema (Value.int 100) noteStore
      (upsert_many noteSchema (Value.int 100) noteStore
        [noteCreate "t1" "bb" 9, noteCreate "t9" "b" 2]).1
      [noteCreate "t1" "bb" 9, noteCreate "t9" "b" 2]
      [1, 4] (by decide),
    (C7_amended_order.2.2 noteSchema (Value.int 100) noteStore
      (update_many_with_id noteSchema (Value.int 100) noteStore
        [noteUpd 1 (some "x") none none, noteUpd 2 none (some "y") none,
          noteUpd 3 (some "z") none none]).1
      [noteUpd 1 (some "x") none none, noteUpd 2 none (some "y") none,
        noteUpd 3 (some "z") none none]
      [1, 3, 2] (by decide)).1,
    (C7_amended_order.2.2 noteSchema (Value.int 100) noteStore
      (update_many_with_id noteSchema (Value.int 100) noteStore
        [noteUpd 1 (some "x") none none, noteUpd 3 (some "z") none none]).1
      [noteUpd 1 (some "x") none none, noteUpd 3 (some "z") none none]
      [1, 3] (by decide)).2.2
      (key_tuple (dict_without_unset (noteUpd 1 (some "x") none none)))
      (by decide)⟩

/-! ## Claims C2 and C10: the partial-update contract of a single-row
update, and the string round trip through it -/

theorem lookup_cons_self (k : String) (v : Value) (d : Dict) :
    List.lookup k ((k, v) :: d) = some v := by
  simp [List.lookup]

theorem lookup_cons_ne (k k1 : String) (v : Value) (d : Dict)
    (h : k1 ≠ k) : List.lookup k ((k1, v) :: d) = List.lookup k d := by
  have hbeq : (k == k1) = false := by
    simp [Ne.symm h]
  simp [List.lookup, hbeq]

/-- With distinct row ids, `find?` locates exactly the member row with
the sought id. -/
theorem find?_rid_of_nodup :
    ∀ (rows : List Row) (r : Row) (i : Int),
      (rows.map Row.rid).Nodup → r ∈ rows → r.rid = i →
      rows.find? (fun r2 => r2.rid == i) = some r := by
  intro rows
  induction rows with
  | nil => intro r i _ hr _; cases hr
  | cons a as ih =>
    intro r i hnd hr hi
    rw [List.map_cons, List.nodup_cons] at hnd
    rcases List.mem_cons.mp hr with hra | hras
    · subst hra
      apply List.find?_cons_of_pos
      simp [hi]
    · have hne : a.rid ≠ i := by
        intro ha
        have hmem : r.rid ∈ as.map Row.rid := List.mem_map_of_mem _ hras
        exact hnd.1 (by rw [ha, ← hi]; exact hmem)
      rw [List.find?_cons_of_neg _ (by simp [hne])]
      exact ih r i hnd.2 hras hi

/-- After replacing the row with id `i` by `r2` (which keeps the id),
`find?` locates `r2`. -/
theorem find?_replaceRow :
    ∀ (rows : List Row) (r r2 : Row) (i : Int),
      (rows.map Row.rid).Nodup → r ∈ rows → r.rid = i → r2.rid = i →
      (replaceRow rows r.rid r2).find? (fun x => x.rid == i) = some r2 := by
  intro rows
  induction rows with
  | nil => intro r r2 i _ hr _ _; cases hr
  | cons a as ih =>
    intro r r2 i hnd hr hi h2
    rw [List.map_cons, List.nodup_cons] at hnd
    unfold replaceRow
    rw [List.map_cons]
    rcases List.mem_cons.mp hr with hra | hras
    · subst hra
      rw [if_pos rfl]
      apply List.find?_cons_of_pos
      simp [h2]
    · have hne : a.rid ≠ i := by
        intro ha
        have hmem : r.rid ∈ as.map Row.rid := List.mem_map_of_mem _ hras
        exact hnd.1 (by rw [ha, ← hi]; exact hmem)
      rw [if_neg (by rw [hi]; exact hne)]
      rw [List.find?_cons_of_neg _ (by simp [hne])]
      exact ih r r2 i hnd.2 hras hi h2

/-- Lookup through the column-wise `DO UPDATE SET` map: a column in the
update list takes the proposed value (when the row has the column at
all), any other column keeps its stored value. -/
theorem dlookup_setmap (vals : List String) (g : String → Option Value) :
    ∀ (d : Dict) (k : String),
      dlookup (d.map (fun kv =>
        if vals.contains kv.1 then (kv.1, (g kv.1).getD kv.2) else kv)) k =
        if vals.contains k then
          (dlookup d k).map (fun old => (g k).getD old)
        else dlookup d k := by
  intro d
  induction d with
  | nil =>
    intro k
    by_cases hk : vals.contains k <;> simp [dlookup, hk]
  | cons kv d2 ih =>
    intro k
    cases kv with
    | mk k1 v1 =>
      have hhead : (if vals.contains k1
          then (k1, (g k1).getD v1) else (k1, v1)) =
          (k1, if vals.contains k1 then (g k1).getD v1 else v1) := by
        by_cases hk1 : vals.contains k1
        · rw [if_pos hk1, if_pos hk1]
        · rw [if_neg hk1, if_neg hk1]
      rw [List.map_cons]
      dsimp only
      rw [hhead]
      by_cases hkk : k1 = k
      · subst hkk
        unfold dlookup
        rw [lookup_cons_self, lookup_cons_self]
        by_cases hk1 : vals.contains k1
        · rw [if_pos hk1, if_pos hk1]
          rfl
        · rw [if_neg hk1, if_neg hk1]
      · unfold dlookup
        rw [lookup_cons_ne k k1 _ _ hkk, lookup_cons_ne k k1 _ _ hkk]
        exact ih k

theorem dlookup_applyUpdate (vals : List String) (e : Entity) (r : Row)
    (k : String) :
    dlookup (applyUpdate vals e r).data k =
      if vals.contains k then
        (dlookup r.data k).map (fun old => (dlookup e.data k).getD old)
      else dlookup r.data k :=
  dlookup_setmap vals (dlookup e.data) r.data k

/-- Looking up a present dict key in the entity `cls(**item)` builds
returns the dict's value, for any schema column of that name. -/
theorem lookup_mkdata (now : Value) (d : Dict) :
    ∀ (cols : List ColumnMeta) (k : String) (v : Value), k ≠ "id" →
      (∃ c ∈ cols, c.name = k) → dlookup d k = some v →
      dlookup ((cols.filter (fun c => c.name ≠ "id")).map (fun c =>
        (c.name, (dlookup d c.name).getD
          (if c.name = "created_at" ∨ c.name = "updated_at" then now
           else c.dflt)))) k = some v := by
  intro cols
  induction cols with
  | nil =>
    rintro k v hkid ⟨c, hc, _⟩ hv
    cases hc
  | cons c cs ih =>
    rintro k v hkid ⟨c2, hc2, hc2k⟩ hv
    by_cases hcid : c.name = "id"
    · rw [List.filter_cons_of_neg (by simp [hcid])]
      apply ih k v hkid ?_ hv
      rcases List.mem_cons.mp hc2 with hh | hh
      · subst hh
        exact absurd hcid (by rw [hc2k]; exact hkid)
      · exact ⟨c2, hh, hc2k⟩
    · rw [List.filter_cons_of_pos (by simp [hcid])]
      rw [List.map_cons]
      by_cases hck : c.name = k
      · subst hck
        unfold dlookup at hv ⊢
        rw [lookup_cons_self, hv]
        rfl
      · unfold dlookup
        rw [lookup_cons_ne k c.name _ _ hck]
        apply ih k v hkid ?_ hv
        rcases List.mem_cons.mp hc2 with hh | hh
        · subst hh
          exact absurd hc2k hck
        · exact ⟨c2, hh, hc2k⟩

theorem dlookup_mkEntity_present (s : EntitySchema) (now : Value)
    (d : Dict) (k : String) (v : Value) (hkid : k ≠ "id")
    (hk : ∃ c ∈ allColumns s, c.name = k) (hv : dlookup d k = some v) :
    dlookup (mkEntity s now d).data k = some v := by
  unfold mkEntity
  exact lookup_mkdata now d (allColumns s) k v hkid hk hv

/-- A set field survives `dict_without_unset` and is found at its key
(key uniqueness makes the binding unambiguous). -/
theorem lookup_fields_filterMap :
    ∀ (fields : List (String × Option Value)) (k : String) (v : Value),
      (fields.map Prod.fst).Nodup → (k, some v) ∈ fields →
      List.lookup k (fields.filterMap (fun p =>
        p.2.map (fun v2 => (p.1, v2)))) = some v := by
  intro fields
  induction fields with
  | nil => intro k v _ hk; cases hk
  | cons p rest ih =>
    intro k v hnd hk
    cases p with
    | mk k1 ov1 =>
      rw [List.map_cons, List.nodup_cons] at hnd
      rcases List.mem_cons.mp hk with hh | hh
      · rw [← hh]
        simp only [List.filterMap_cons, Option.map]
        rw [lookup_cons_self]
      · have hk1 : k1 ≠ k := by
          intro he
          have : k ∈ rest.map Prod.fst :=
            List.mem_map_of_mem Prod.fst hh
          exact hnd.1 (by rw [he]; exact this)
        cases ov1 with
        | none =>
          simp only [List.filterMap_cons, Option.map]
          exact ih k v hnd.2 hh
        | some w =>
          simp only [List.filterMap_cons, Option.map]
          rw [lookup_cons_ne k k1 _ _ hk1]
          exact ih k v hnd.2 hh

/-- An unset field's key does not appear at all in the
`dict_without_unset` image of the fields. -/
theorem not_mem_fields_filterMap_keys :
    ∀ (fields : List (String × Option Value)) (k : String),
      (fields.map Prod.fst).Nodup → (k, none) ∈ fields →
      k ∉ (fields.filterMap (fun p =>
        p.2.map (fun v2 => (p.1, v2)))).map Prod.fst := by
  intro fields
  induction fields with
  | nil => intro k _ hk; cases hk
  | cons p rest ih =>
    intro k hnd hk
    cases p with
    | mk k1 ov1 =>
      rw [List.map_cons, List.nodup_cons] at hnd
      have hsub : ∀ k2, k2 ∈ (rest.filterMap (fun p =>
          p.2.map (fun v2 => (p.1, v2)))).map Prod.fst →
          k2 ∈ rest.map Prod.fst := by
        intro k2 hk2
        rcases List.mem_map.mp hk2 with ⟨q, hq, hqk⟩
        rcases List.mem_filterMap.mp hq with ⟨p2, hp2, hp2q⟩
        cases hov : p2.2 with
        | none => rw [hov] at hp2q; cases hp2q
        | some w =>
          rw [hov] at hp2q
          dsimp only [Option.map] at hp2q
          have := Option.some.inj hp2q
          rw [← hqk, ← this]
          exact List.mem_map_of_mem Prod.fst hp2
      rcases List.mem_cons.mp hk with hh | hh
      · rw [Prod.mk.injEq] at hh
        obtain ⟨hk1, hov⟩ := hh
        subst hk1
        subst hov
        simp only [List.filterMap_cons, Option.map]
        intro hmem
        exact hnd.1 (hsub k hmem)
      · have hk1 : k1 ≠ k := by
          intro he
          have : k ∈ rest.map Prod.fst :=
            List.mem_map_of_mem Prod.fst hh
          exact hnd.1 (by rw [he]; exact this)
        cases ov1 with
        | none =>
          simp only [List.filterMap_cons, Option.map]
          exact ih k hnd.2 hh
        | some w =>
          simp only [List.filterMap_cons, Option.map, List.map_cons]
          intro hmem
          rcases List.mem_cons.mp hmem with hm | hm
          · exact hk1 hm.symm
          · exact ih k hnd.2 hh hm

theorem lookup_some_mem_keys :
    ∀ (d : Dict) (k : String) (v : Value),
      List.lookup k d = some v → k ∈ d.map Prod.fst := by
  intro d
  induction d with
  | nil => intro k v h; cases h
  | cons kv rest ih =>
    intro k v h
    cases kv with
    | mk k1 v1 =>
      rw [List.map_cons]
      by_cases hk : k1 = k
      · exact hk ▸ List.mem_cons_self _ _
      · rw [lookup_cons_ne k k1 _ _ hk] at h
        exact List.mem_cons_of_mem _ (ih k v h)

theorem dlookup_dwu_present (dto : UpdateWithIdDto) (k : String)
    (v : Value) (hnd : (dto.fields.map Prod.fst).Nodup) (hkid : k ≠ "id")
    (hk : (k, some v) ∈ dto.fields) :
    dlookup (dict_without_unset dto) k = some v := by
  unfold dict_without_unset dlookup
  rw [lookup_cons_ne k "id" _ _ (Ne.symm hkid)]
  exact lookup_fields_filterMap dto.fields k v hnd hk

theorem dwu_key_not_mem (dto : UpdateWithIdDto) (k : String)
    (hnd : (dto.fields.map Prod.fst).Nodup) (hkid : k ≠ "id")
    (hk : (k, none) ∈ dto.fields) :
    k ∉ (dict_without_unset dto).map Prod.fst := by
  unfold dict_without_unset
  rw [List.map_cons]
  intro hmem
  rcases List.mem_cons.mp hmem with h | h
  · exact hkid h
  · exact not_mem_fields_filterMap_keys dto.fields k hnd hk h

theorem mem_cols_to_update_iff (d : Dict) (rest : List Dict) (k : String) :
    k ∈ cols_to_update (d :: rest) ↔
      (k ∈ d.map Prod.fst ∧ k ≠ "id" ∧ dlookup d k ≠ some Value.null) := by
  unfold cols_to_update
  rw [List.mem_filter]
  constructor
  · rintro ⟨hmem, hpred⟩
    rw [Bool.and_eq_true] at hpred
    refine ⟨hmem, of_decide_eq_true hpred.1, ?_⟩
    have h2 := hpred.2
    simp only [Bool.not_eq_true', decide_eq_false_iff_not] at h2
    exact h2
  · rintro ⟨hmem, hkid, hnn⟩
    refine ⟨hmem, ?_⟩
    rw [Bool.and_eq_true]
    refine ⟨decide_eq_true hkid, ?_⟩
    simp only [Bool.not_eq_true', decide_eq_false_iff_not]
    exact hnn

/-- The core single-row fact behind claims C2 and C10: running
`update_many_with_id` on one DTO whose id belongs to a stored row (and
succeeding) returns exactly that id and rewrites only the DTO's set
fields: a set field takes the DTO's value, an unset field keeps the
stored value. -/
theorem update_single_row_fields (s : EntitySchema) (now : Value)
    (st : StoreState) (dto : UpdateWithIdDto) (r : Row)
    (st2 : StoreState) (ids : List Int)
    (hr : r ∈ st.rows) (hrid : r.rid = dto.id)
    (hnd : (st.rows.map Row.rid).Nodup)
    (hfnd : (dto.fields.map Prod.fst).Nodup)
    (hnotid : "id" ∉ dto.fields.map Prod.fst)
    (hnotupd : "updated_at" ∉ dto.fields.map Prod.fst)
    (hcols : ∀ p ∈ dto.fields, ∃ c ∈ allColumns s, c.name = p.1)
    (hrkeys : ∀ p ∈ dto.fields, ∃ w, dlookup r.data p.1 = some w)
    (hnonull : ∀ p ∈ dto.fields, p.2 ≠ some Value.null)
    (hrun : update_many_with_id s now st [dto] = (st2, Except.ok ids)) :
    ids = [dto.id] ∧ ∃ r2, rowById st2 dto.id = some r2 ∧
      ∀ p ∈ dto.fields,
        (p.2 = none → dlookup r2.data p.1 = dlookup r.data p.1) ∧
        (∀ v, p.2 = some v → dlookup r2.data p.1 = some v) := by
  have hrid2 : resolvedId st (mkEntity s now (dict_without_unset dto)) =
      dto.id := by
    unfold resolvedId
    rw [mkEntity_idVal]
    rfl
  have hconf : findConflict s st.rows
      (resolvedId st (mkEntity s now (dict_without_unset dto)))
      (mkEntity s now (dict_without_unset dto)) =
      some (ConflictTarget.col "id", r) := by
    rw [hrid2]
    unfold findConflict
    rw [find?_rid_of_nodup st.rows r dto.id hnd hr hrid]
  have hone : execInsertOne s
      (some ⟨some (ConflictTarget.col "id"), OnConflictAction.doUpdate,
        cols_to_update [dict_without_unset dto] ++ ["updated_at"]⟩)
      st (mkEntity s now (dict_without_unset dto)) =
      if rowViolatesUnique s st.rows
          (applyUpdate
            (cols_to_update [dict_without_unset dto] ++ ["updated_at"])
            (mkEntity s now (dict_without_unset dto)) r) then
        Except.error (DbError.uniqueViolation
          (violationMsg (ConflictTarget.col "id")))
      else
        Except.ok (⟨replaceRow st.rows r.rid
          (applyUpdate
            (cols_to_update [dict_without_unset dto] ++ ["updated_at"])
            (mkEntity s now (dict_without_unset dto)) r), st.nextId⟩,
          some r.rid) := by
    unfold execInsertOne
    rw [hconf]
    dsimp only
    rw [if_pos rfl]
  unfold update_many_with_id at hrun
  rw [update_stmts_singleton] at hrun
  simp only [runStmts, execInsertStmt, updateStmtFor, List.map_cons,
    List.map_nil, execInsertRows, hone] at hrun
  by_cases hviol : rowViolatesUnique s st.rows
      (applyUpdate (cols_to_update [dict_without_unset dto] ++ ["updated_at"])
        (mkEntity s now (dict_without_unset dto)) r)
  · rw [if_pos hviol] at hrun
    dsimp only at hrun
    have := congrArg Prod.snd hrun
    simp at this
  · rw [if_neg hviol] at hrun
    dsimp only at hrun
    have h1 := congrArg Prod.fst hrun
    have h2 := congrArg Prod.snd hrun
    simp only at h1 h2
    have hids : ids = [r.rid] := by
      cases h2
      rfl
    refine ⟨by rw [hids, hrid], ?_⟩
    refine ⟨applyUpdate
      (cols_to_update [dict_without_unset dto] ++ ["updated_at"])
      (mkEntity s now (dict_without_unset dto)) r, ?_, ?_⟩
    · unfold rowById
      rw [← h1]
      exact find?_replaceRow st.rows r _ dto.id hnd hr hrid hrid
    · intro p hp
      cases p with
      | mk k ov =>
        have hkmemf : k ∈ dto.fields.map Prod.fst :=
          List.mem_map_of_mem Prod.fst hp
        have hkid : k ≠ "id" := by
          intro he
          exact hnotid (he ▸ hkmemf)
        have hkupd : k ≠ "updated_at" := by
          intro he
          exact hnotupd (he ▸ hkmemf)
        constructor
        · intro hov
          subst hov
          have hknotmem : k ∉ (dict_without_unset dto).map Prod.fst :=
            dwu_key_not_mem dto k hfnd hkid hp
          have hkvals : k ∉ cols_to_update [dict_without_unset dto] ++
              ["updated_at"] := by
            intro hkv
            rcases List.mem_append.mp hkv with h3 | h3
            · exact hknotmem
                ((mem_cols_to_update_iff (dict_without_unset dto) [] k).mp
                  h3).1
            · rw [List.mem_singleton] at h3
              exact hkupd h3
          rw [dlookup_applyUpdate, if_neg (by simpa using hkvals)]
        · intro v hov
          subst hov
          have hlook : dlookup (dict_without_unset dto) k = some v :=
            dlookup_dwu_present dto k v hfnd hkid hp
          have hvnn : v ≠ Value.null := by
            intro he
            exact hnonull (k, some v) hp (by rw [he])
          have hkmem : k ∈ (dict_without_unset dto).map Prod.fst :=
            lookup_some_mem_keys (dict_without_unset dto) k v hlook
          have hkvals : k ∈ cols_to_update [dict_without_unset dto] ++
              ["updated_at"] :=
            List.mem_append_left _
              ((mem_cols_to_update_iff (dict_without_unset dto) [] k).mpr
                ⟨hkmem, hkid, by
                  rw [hlook]
                  intro hx
                  exact hvnn (Option.some.inj hx)⟩)
          rw [dlookup_applyUpdate, if_pos (by simpa using hkvals)]
          rcases hrkeys (k, some v) hp with ⟨w, hw⟩
          rw [hw]
          dsimp only [Option.map]
          rw [dlookup_mkEntity_present s now (dict_without_unset dto) k v
            hkid (hcols (k, some v) hp) hlook]
          rfl

/-- Claim C2 (confirmed): updating a single existing row, every column
whose DTO field is absent keeps its previously stored value and every
column whose DTO field is set takes the given value.  (The code achieves
this not with COALESCE but by excluding absent keys from the
`DO UPDATE SET` column list; the observable per-column contract is the
claimed one.  The run is assumed to succeed — a uniqueness collision on
another column would raise instead.) -/
theorem C2_coalesce_contract (s : EntitySchema) (now : Value)
    (st : StoreState) (dto : UpdateWithIdDto) (r : Row)
    (st2 : StoreState) (ids : List Int)
    (hr : r ∈ st.rows) (hrid : r.rid = dto.id)
    (hnd : (st.rows.map Row.rid).Nodup)
    (hfnd : (dto.fields.map Prod.fst).Nodup)
    (hnotid : "id" ∉ dto.fields.map Prod.fst)
    (hnotupd : "updated_at" ∉ dto.fields.map Prod.fst)
    (hcols : ∀ p ∈ dto.fields, ∃ c ∈ allColumns s, c.name = p.1)
    (hrkeys : ∀ p ∈ dto.fields, (dlookup r.data p.1).isSome = true)
    (hnonull : ∀ p ∈ dto.fields, p.2 ≠ some Value.null)
    (hrun : update_many_with_id s now st [dto] = (st2, Except.ok ids)) :
    ids = [dto.id] ∧ ∃ r2, rowById st2 dto.id = some r2 ∧
      ∀ p ∈ dto.fields,
        (p.2 = none → dlookup r2.data p.1 = dlookup r.data p.1) ∧
        (∀ v, p.2 = some v → dlookup r2.data p.1 = some v) :=
  update_single_row_fields s now st dto r st2 ids hr hrid hnd hfnd
    hnotid hnotupd hcols
    (fun p hp => Option.isSome_iff_exists.mp (hrkeys p hp)) hnonull hrun

/-- The claim's worked example: one stored row
`{title:"T", body:"B", rating:5}`. -/
def noteStoreC2 : StoreState := ⟨[noteRow 1 "T" "B" 5], 2⟩

/-- The claim's worked example: `{id: 1, body: "B2"}` (title and rating
absent). -/
def noteDtoC2 : UpdateWithIdDto := noteUpd 1 none (some "B2") none

/-- Witness for `C2_coalesce_contract` at the claim's own example: after
`update_many_with_id([{id, body:"B2"}])` the row keeps `title:"T"` and
`rating:5` and holds `body:"B2"`. -/
theorem C2_witness :
    [(1 : Int)] = [noteDtoC2.id] ∧ ∃ r2,
      rowById (update_many_with_id noteSchema (Value.int 100) noteStoreC2
        [noteDtoC2]).1 noteDtoC2.id = some r2 ∧
      ∀ p ∈ noteDtoC2.fields,
        (p.2 = none → dlookup r2.data p.1 =
          dlookup (noteRow 1 "T" "B" 5).data p.1) ∧
        (∀ v, p.2 = some v → dlookup r2.data p.1 = some v) :=
  C2_coalesce_contract noteSchema (Value.int 100) noteStoreC2 noteDtoC2
    (noteRow 1 "T" "B" 5)
    (update_many_with_id noteSchema (Value.int 100) noteStoreC2
      [noteDtoC2]).1 [1]
    (by decide) (by decide) (by decide) (by decide) (by decide) (by decide)
    (by decide) (by decide) (by decide) (by decide)

/-- Claim C10 (confirmed): a string value submitted through
`update_many_with_id` is stored and read back unchanged, whatever
characters (apostrophes included) it contains.  The update path binds
values as statement parameters — no literal encoding occurs anywhere in
`src/models/base.py` — so the claim's "single quotes doubled wherever
literal encoding is used" clause is vacuously satisfied and the
write-then-read round trip is the identity on string fields. -/
theorem C10_string_roundtrip (s : EntitySchema) (now : Value)
    (st : StoreState) (dto : UpdateWithIdDto) (r : Row)
    (st2 : StoreState) (ids : List Int) (k : String) (v : String)
    (hr : r ∈ st.rows) (hrid : r.rid = dto.id)
    (hnd : (st.rows.map Row.rid).Nodup)
    (hfnd : (dto.fields.map Prod.fst).Nodup)
    (hnotid : "id" ∉ dto.fields.map Prod.fst)
    (hnotupd : "updated_at" ∉ dto.fields.map Prod.fst)
    (hcols : ∀ p ∈ dto.fields, ∃ c ∈ allColumns s, c.name = p.1)
    (hrkeys : ∀ p ∈ dto.fields, (dlookup r.data p.1).isSome = true)
    (hnonull : ∀ p ∈ dto.fields, p.2 ≠ some Value.null)
    (hk : (k, some (Value.str v)) ∈ dto.fields)
    (hrun : update_many_with_id s now st [dto] = (st2, Except.ok ids)) :
    ∃ r2, read_one st2 dto.id = Except.ok r2 ∧
      dlookup r2.data k = some (Value.str v) := by
  obtain ⟨hids, r2, hrow, hfields⟩ :=
    update_single_row_fields s now st dto r st2 ids hr hrid hnd hfnd
      hnotid hnotupd hcols
      (fun p hp => Option.isSome_iff_exists.mp (hrkeys p hp)) hnonull hrun
  refine ⟨r2, ?_, ?_⟩
  · unfold read_one
    unfold rowById at hrow
    rw [hrow]
  · exact (hfields (k, some (Value.str v)) hk).2 (Value.str v) rfl

/-- An apostrophe character, built from its code point. -/
def apos : Char := Char.ofNat 39

/-- The claim's example title containing embedded apostrophes. -/
def obrienTitle : String :=
  String.mk ['O', apos, 'B', 'r', 'i', 'e', 'n', apos, 's', ' ',
    'W', 'i', 'd', 'g', 'e', 't']

/-- Witness for `C10_string_roundtrip`: the title with embedded
apostrophes written through `update_many_with_id` reads back
unchanged. -/
theorem C10_witness :
    ∃ r2, read_one (update_many_with_id noteSchema (Value.int 100)
        noteStoreC2 [noteUpd 1 (some obrienTitle) none none]).1
        (noteUpd 1 (some obrienTitle) none none).id = Except.ok r2 ∧
      dlookup r2.data "title" = some (Value.str obrienTitle) :=
  C10_string_roundtrip noteSchema (Value.int 100) noteStoreC2
    (noteUpd 1 (some obrienTitle) none none) (noteRow 1 "T" "B" 5)
    (update_many_with_id noteSchema (Value.int 100) noteStoreC2
      [noteUpd 1 (some obrienTitle) none none]).1 [1] "title" obrienTitle
    (by decide) (by decide) (by decide) (by decide) (by decide) (by decide)
    (by decide) (by decide) (by decide) (by decide) (by decide)
